import Mathlib

/-!
# Chat transport client: relayed and peer transports

A shallow embedding of `src/Utils/network.js` (the relayed WebSocket transport
and the WebRTC peer transport with its signaling handler) and of the parts of
`src/App.jsx` that consume them (the upward `onMessage` handler and the file
input handler), followed by the properties proved about them.

JavaScript strings are modelled by their UTF-16 code units, so that string
comparison is the comparison the language performs.  Objects that live in the
browser (`RTCPeerConnection`, `WebSocket`, `RTCDataChannel`) are not part of
the repository: every call into them appears as an effect in the trace a
handler returns, and whether the call succeeds is read from an environment
record.
-/

namespace ChatApp

/-! ## JavaScript strings -/

/-- A JavaScript string value, as the sequence of its UTF-16 code units. -/
abbrev JSString := List Nat

/-- The UTF-16 code units of one character: itself below `0x10000`, a
surrogate pair from there on. -/
def utf16Units (c : Char) : List Nat :=
  if c.toNat < 65536 then [c.toNat]
  else [55296 + (c.toNat - 65536) / 1024, 56320 + (c.toNat - 65536) % 1024]

/-- The JavaScript string written as literal text in the source. -/
def lit (s : String) : JSString := s.toList.flatMap utf16Units

/-- The relational comparison `x < y` of two JavaScript strings: `false` when
`y` is a leading part of `x`, `true` when `x` is a proper leading part of `y`,
otherwise decided by the first code unit at which they differ. -/
def jsStrLt : JSString → JSString → Bool
  | _, [] => false
  | [], _ :: _ => true
  | x :: xs, y :: ys => if x = y then jsStrLt xs ys else decide (x < y)

/-- The comparison `x > y` of two JavaScript strings, which the language
evaluates as `y < x`. -/
def jsStrGt (x y : JSString) : Bool := jsStrLt y x

/-- The comparison `x > v` where `v` is a property that may be missing:
a missing property is `undefined`, which converts to NaN and compares false. -/
def jsGtProp (x : JSString) : Option JSString → Bool
  | some y => jsStrGt x y
  | none => false

/-- The string a property converts to when it is used as text or as a
property key: a missing property is `undefined`, written `"undefined"`. -/
def stringOfProp : Option JSString → JSString
  | some s => s
  | none => lit "undefined"

/-! ## Envelopes -/

/-- A `Blob`: its bytes and its `type`. -/
structure Blob where
  bytes : List Nat
  type : JSString
deriving DecidableEq, Repr

/-- An envelope: the object a transport parses from the wire, sends on the wire
or hands to `onMessage`.  Every property but `type` may be missing.  `χ` is the
representation of `chunk` on the transport: an array of numbers on the data
channel, a base-64 string on the relayed socket.  `endFlag` is the truthiness
of the property `end`.  The `ts` property (the clock at delivery) is left out. -/
structure Envelope (χ : Type) where
  type : JSString
  sender : Option JSString := none
  username : Option JSString := none
  list : Option (List JSString) := none
  text : Option JSString := none
  filename : Option JSString := none
  chunk : Option χ := none
  mime : Option JSString := none
  endFlag : Bool := false
  blob : Option Blob := none
  fileUrl : Option JSString := none
deriving DecidableEq, Repr

/-- Envelopes of the peer data channel. -/
abbrev PeerEnvelope := Envelope (List Nat)

/-- Envelopes of the relayed socket. -/
abbrev RelayEnvelope := Envelope JSString

/-! ## Signaling messages and the negotiation state -/

/-- A session description as carried in the `sdp` property of a signaling
message: its `type` and its `sdp` text. -/
structure SessionDescription where
  type : JSString
  sdp : JSString
deriving DecidableEq, Repr

/-- A parsed signaling message (the object `JSON.parse` returns in
`signalWs.onmessage`), and also the shape of the messages the peer transport
sends on the signaling socket.  The payload is a JSON object, so that reading
`msg.type` does not throw, and its `sdp`, when present, is a description the
constructor `RTCSessionDescription` accepts; a missing or empty `candidate` is
the falsy value `safeAddIce` returns on. -/
structure SignalMsg where
  type : JSString
  username : Option JSString := none
  room : Option JSString := none
  list : Option (List JSString) := none
  sdp : Option SessionDescription := none
  candidate : Option JSString := none
deriving DecidableEq, Repr

/-- The values of `pc.signalingState`. -/
inductive SignalingState where
  | stable
  | haveLocalOffer
  | haveRemoteOffer
  | haveLocalPranswer
  | haveRemotePranswer
  | closed
deriving DecidableEq, Repr

/-- The three negotiation variables of `connectWebRTC`. -/
structure Negotiation where
  makingOffer : Bool
  ignoreOffer : Bool
  polite : Bool
deriving DecidableEq, Repr

/-- The initial values: `makingOffer = false`, `ignoreOffer = false`,
`polite = false`. -/
def Negotiation.initial : Negotiation :=
  { makingOffer := false, ignoreOffer := false, polite := false }

/-- What the browser answers during one run of the signaling handler: the
signaling state read at the start, and for each call whether it succeeds
(`none` or `false` is a rejected promise or a thrown error). -/
structure PcEnv where
  signalingState : SignalingState
  createOffer : Option SessionDescription
  createAnswer : Option SessionDescription
  setLocalDescriptionOk : Bool
  setRemoteDescriptionOk : Bool
  addIceCandidateOk : Bool
  localDescription : Option SessionDescription
  signalSendOk : Bool
deriving DecidableEq, Repr

/-- The calls a run of the signaling handler makes, in order. -/
inductive SigEffect where
  | onMessage (m : PeerEnvelope)
  | createOffer
  | createAnswer
  | setLocalDescription (d : SessionDescription)
  | setRemoteDescription (d : Option SessionDescription)
  | addIceCandidate (c : JSString)
  | signalSend (m : SignalMsg)
deriving DecidableEq, Repr

/-- The outcome of a run of the signaling handler: the negotiation variables
when the run has finished, the calls it made, and whether the handler's outer
`catch` clause ran (an error was thrown inside its `try` block). -/
structure SigResult where
  state : Negotiation
  effects : List SigEffect
  caught : Bool := false
deriving DecidableEq, Repr

/-- The identity a peer transport was created with. -/
structure PeerConfig where
  username : JSString
  room : JSString
deriving DecidableEq, Repr

/-- The strict inequality `msg.username !== username`. -/
def notSelf (cfg : PeerConfig) (msg : SignalMsg) : Bool :=
  decide (msg.username ≠ some cfg.username)

/-- The offer construction of the `peer-joined` branch: `createOffer`,
`setLocalDescription(offer)`, then the send of the offer on the signaling
socket; the first step that fails ends the sequence. -/
def offerSteps (cfg : PeerConfig) (env : PcEnv) : List SigEffect :=
  match env.createOffer with
  | none => [.createOffer]
  | some offer =>
    if env.setLocalDescriptionOk then
      [.createOffer, .setLocalDescription offer,
       .signalSend { type := lit "offer", room := some cfg.room,
                     username := some cfg.username, sdp := env.localDescription }]
    else [.createOffer, .setLocalDescription offer]

/-- The acceptance of an incoming offer: `setRemoteDescription(desc)`,
`createAnswer`, `setLocalDescription(answer)`, then the send of the answer on
the signaling socket; the first step that fails ends the sequence. -/
def answerSteps (cfg : PeerConfig) (env : PcEnv) (desc : Option SessionDescription) :
    List SigEffect :=
  if env.setRemoteDescriptionOk then
    match env.createAnswer with
    | none => [.setRemoteDescription desc, .createAnswer]
    | some answer =>
      if env.setLocalDescriptionOk then
        [.setRemoteDescription desc, .createAnswer, .setLocalDescription answer,
         .signalSend { type := lit "answer", room := some cfg.room,
                       username := some cfg.username, sdp := env.localDescription }]
      else [.setRemoteDescription desc, .createAnswer, .setLocalDescription answer]
  else [.setRemoteDescription desc]

/-- Whether the offer construction of the `peer-joined` branch throws. -/
def offerThrows (env : PcEnv) : Bool :=
  env.createOffer.isNone || !env.setLocalDescriptionOk || !env.signalSendOk

/-- Whether the acceptance of an incoming offer throws. -/
def answerThrows (env : PcEnv) : Bool :=
  !env.setRemoteDescriptionOk || env.createAnswer.isNone ||
    !env.setLocalDescriptionOk || !env.signalSendOk

/-- The negotiation variables as other handlers see them while a run of the
`peer-joined` branch is suspended at `await pc.createOffer()` or at
`await pc.setLocalDescription(offer)`: `polite` is assigned, `makingOffer` is
`true`. -/
def duringOffer (cfg : PeerConfig) (st : Negotiation) (remote : Option JSString) :
    Negotiation :=
  { st with polite := jsGtProp cfg.username remote, makingOffer := true }

/-- The collision test of the offer branch:
`makingOffer || pc.signalingState !== "stable"`. -/
def offerCollision (st : Negotiation) (env : PcEnv) : Bool :=
  st.makingOffer || decide (env.signalingState ≠ SignalingState.stable)

/-- The handler `signalWs.onmessage` of `connectWebRTC`.  The argument is the
result of `JSON.parse(ev.data)`, `none` when parsing throws. -/
def signalWs_onmessage (cfg : PeerConfig) (env : PcEnv) (st : Negotiation) :
    Option SignalMsg → SigResult
  | none => { state := st, effects := [] }
  | some msg =>
    if msg.type = lit "users" then
      { state := st, effects := [.onMessage { type := lit "users", list := msg.list }] }
    else if msg.type = lit "peer-left" then
      { state := st, effects := [.onMessage { type := lit "leave", username := msg.username }] }
    else if msg.type = lit "peer-joined" then
      if notSelf cfg msg then
        { state := { st with polite := jsGtProp cfg.username msg.username,
                             makingOffer := false },
          effects :=
            .onMessage { type := lit "join", username := msg.username } :: offerSteps cfg env,
          caught := offerThrows env }
      else
        { state := st,
          effects := [.onMessage { type := lit "join", username := msg.username }] }
    else if msg.type = lit "offer" && notSelf cfg msg then
      if !st.polite && offerCollision st env then
        { state := { st with ignoreOffer := true }, effects := [] }
      else
        { state := { st with ignoreOffer := false },
          effects := answerSteps cfg env msg.sdp,
          caught := answerThrows env }
    else if msg.type = lit "answer" && notSelf cfg msg then
      { state := st, effects := [.setRemoteDescription msg.sdp] }
    else if msg.type = lit "ice" && notSelf cfg msg then
      match msg.candidate with
      | none => { state := st, effects := [] }
      | some [] => { state := st, effects := [] }
      | some (c :: cs) => { state := st, effects := [.addIceCandidate (c :: cs)] }
    else
      { state := st, effects := [] }

/-! ## The data-channel handler of the peer transport -/

/-- The property names a plain object inherits from `Object.prototype`: a
lookup of one of them on `fileBuffer` yields an inherited function or object,
not `undefined`. -/
def objectPrototypeKeys : List JSString :=
  [lit "constructor", lit "__proto__", lit "hasOwnProperty", lit "isPrototypeOf",
   lit "propertyIsEnumerable", lit "toLocaleString", lit "toString", lit "valueOf",
   lit "__defineGetter__", lit "__defineSetter__", lit "__lookupGetter__",
   lit "__lookupSetter__"]

/-- The own properties of the object `fileBuffer`: for each key the array of
numbers accumulated so far. -/
abbrev FileBuffer := JSString → Option (List Nat)

/-- The object `fileBuffer` as created: no own property. -/
def FileBuffer.empty : FileBuffer := fun _ => none

/-- What the lookup `fileBuffer[key]` yields. -/
inductive Slot where
  | undefined
  | inherited
  | array (xs : List Nat)
deriving DecidableEq, Repr

/-- The lookup `fileBuffer[key]`: the own property when there is one,
otherwise what the prototype holds. -/
def FileBuffer.get (fb : FileBuffer) (key : JSString) : Slot :=
  match fb key with
  | some xs => .array xs
  | none => if key ∈ objectPrototypeKeys then .inherited else .undefined

/-- The assignment `fileBuffer[key] = xs`. -/
def FileBuffer.set (fb : FileBuffer) (key : JSString) (xs : List Nat) : FileBuffer :=
  fun k => if k = key then some xs else fb k

/-- The statement `delete fileBuffer[key]`. -/
def FileBuffer.delete (fb : FileBuffer) (key : JSString) : FileBuffer :=
  fun k => if k = key then none else fb k

/-- The conversion `new Uint8Array(array)`: every number modulo 256. -/
def toUint8Array (xs : List Nat) : List Nat := xs.map (· % 256)

/-- The outcome of a run of `dc.onmessage`: the buffer afterwards, the events
handed to `onMessage` in order, and whether the `catch` clause ran. -/
structure DcResult where
  fileBuffer : FileBuffer
  delivered : List PeerEnvelope
  caught : Bool := false

/-- An argument limit used in the examples.  The largest number of arguments a
call may be given is a property of the JavaScript engine, not of the
repository, and is a parameter `maxArgs` of every definition that spreads an
array into a call; engines in use accept some tens of thousands of arguments
and reject 131072. -/
def exampleMaxArgs : Nat := 100000

/-- The handler `dc.onmessage` installed by `wireDataChannel`.  The argument is
the result of `JSON.parse(e.data)`, `none` when parsing throws.  The call
`push(...data.chunk)` throws a RangeError when the chunk has more than
`maxArgs` elements. -/
def dc_onmessage (maxArgs : Nat) (username : JSString) (fb : FileBuffer) :
    Option PeerEnvelope → DcResult
  | none => { fileBuffer := fb, delivered := [], caught := true }
  | some data =>
    if data.type = lit "file_chunk" then
      let key := stringOfProp data.filename
      match fb.get key with
      | .inherited =>
        -- the inherited value has no `push`: TypeError
        { fileBuffer := fb, delivered := [], caught := true }
      | .undefined =>
        match data.chunk with
        | none =>
          -- the entry has been created, then the spread of `undefined` throws
          { fileBuffer := fb.set key [], delivered := [], caught := true }
        | some chunk =>
          if chunk.length > maxArgs then
            -- the entry has been created, then the call of `push` throws
            { fileBuffer := fb.set key [], delivered := [], caught := true }
          else if data.endFlag then
            { fileBuffer := fb.delete key,
              delivered := [{ type := lit "file", sender := data.sender,
                              filename := data.filename,
                              blob := some { bytes := toUint8Array chunk, type := [] } }] }
          else { fileBuffer := fb.set key chunk, delivered := [] }
      | .array xs =>
        match data.chunk with
        | none => { fileBuffer := fb, delivered := [], caught := true }
        | some chunk =>
          if chunk.length > maxArgs then
            { fileBuffer := fb, delivered := [], caught := true }
          else if data.endFlag then
            { fileBuffer := fb.delete key,
              delivered := [{ type := lit "file", sender := data.sender,
                              filename := data.filename,
                              blob := some { bytes := toUint8Array (xs ++ chunk),
                                             type := [] } }] }
          else { fileBuffer := fb.set key (xs ++ chunk), delivered := [] }
    else if data.sender ≠ some username then
      { fileBuffer := fb, delivered := [data] }
    else { fileBuffer := fb, delivered := [] }

/-- The handler `dc.onmessage` run on a sequence of payloads, one after the
other: the buffer at the end, and everything handed to `onMessage`, in order. -/
def dc_run (maxArgs : Nat) (username : JSString) (fb : FileBuffer) :
    List (Option PeerEnvelope) → DcResult
  | [] => { fileBuffer := fb, delivered := [] }
  | p :: ps =>
    let first := dc_onmessage maxArgs username fb p
    let rest := dc_run maxArgs username first.fileBuffer ps
    { fileBuffer := rest.fileBuffer,
      delivered := first.delivered ++ rest.delivered,
      caught := first.caught || rest.caught }

/-- The numbers carried by a sequence of envelopes, in order. -/
def chunkBytes (es : List PeerEnvelope) : List Nat :=
  es.flatMap (fun e => e.chunk.getD [])

/-- An envelope is a chunk of the file named `f`: its type is `file_chunk`, its
`filename` is `f`, and it carries a `chunk`. -/
def IsChunkOf (f : JSString) (e : PeerEnvelope) : Prop :=
  e.type = lit "file_chunk" ∧ e.filename = some f ∧ e.chunk.isSome = true

/-- The chunk of an envelope can be spread into one call: it has at most
`maxArgs` elements. -/
def ChunkFits (maxArgs : Nat) (e : PeerEnvelope) : Prop :=
  (e.chunk.getD []).length ≤ maxArgs

/-! ## Base 64 (`btoa` and `atob`) -/

/-- The base-64 alphabet, as code units: `A-Z`, `a-z`, `0-9`, `+`, `/`. -/
def base64Alphabet : List Nat :=
  (List.range 26).map (· + 65) ++ (List.range 26).map (· + 97) ++
    (List.range 10).map (· + 48) ++ [43, 47]

/-- The code unit that stands for the six-bit value `n`. -/
def base64Char (n : Nat) : Nat := base64Alphabet.getD n 0

/-- The six-bit value a code unit stands for, `none` outside the alphabet. -/
def base64Value (c : Nat) : Option Nat :=
  if 65 ≤ c ∧ c ≤ 90 then some (c - 65)
  else if 97 ≤ c ∧ c ≤ 122 then some (c - 97 + 26)
  else if 48 ≤ c ∧ c ≤ 57 then some (c - 48 + 52)
  else if c = 43 then some 62
  else if c = 47 then some 63
  else none

/-- The function `btoa` on a string whose code units are bytes: three bytes
give four characters, a last group of one or two bytes is padded with `=`. -/
def btoa : List Nat → JSString
  | a :: b :: c :: rest =>
    base64Char (a / 4) :: base64Char (a % 4 * 16 + b / 16) ::
      base64Char (b % 16 * 4 + c / 64) :: base64Char (c % 64) :: btoa rest
  | [a, b] =>
    [base64Char (a / 4), base64Char (a % 4 * 16 + b / 16), base64Char (b % 16 * 4), 61]
  | [a] => [base64Char (a / 4), base64Char (a % 4 * 16), 61, 61]
  | [] => []

/-- The bytes that a sequence of six-bit values decodes to: four values give
three bytes; of a last group of three or two values the surplus bits are
dropped. -/
def decodeSextets : List Nat → List Nat
  | a :: b :: c :: d :: rest =>
    (a * 4 + b / 16) :: (b % 16 * 16 + c / 4) :: (c % 4 * 64 + d) :: decodeSextets rest
  | [a, b, c] => [a * 4 + b / 16, b % 16 * 16 + c / 4]
  | [a, b] => [a * 4 + b / 16]
  | _ => []

/-- The removal of one or two `=` at the end of a string. -/
def stripPadding (s : JSString) : JSString :=
  match s.reverse with
  | 61 :: 61 :: rest => rest.reverse
  | 61 :: rest => rest.reverse
  | _ => s

/-- The function `atob` (forgiving base-64 decoding): ASCII whitespace is
removed; when the length is a multiple of four, one or two `=` at the end are
removed; a length that is one more than a multiple of four, or a character
outside the alphabet, makes the call throw (`none`); otherwise the result is the
string whose code units are the decoded bytes. -/
def atob (s : JSString) : Option (List Nat) :=
  let data := s.filter (fun c => !(c = 9 || c = 10 || c = 12 || c = 13 || c = 32))
  let data := if data.length % 4 = 0 then stripPadding data else data
  if data.length % 4 = 1 then none
  else (data.mapM base64Value).map decodeSextets

/-! ## The message handler of the relayed transport -/

/-- The method `add` of a `Set`, kept as the list of its members in insertion
order. -/
def setAdd {α : Type} [DecidableEq α] (s : List α) (u : α) : List α :=
  if u ∈ s then s else s ++ [u]

/-- The method `delete` of a `Set`. -/
def setDelete {α : Type} [DecidableEq α] (s : List α) (u : α) : List α :=
  s.filter (fun x => decide (x ≠ u))

/-- The constructor `new Set(array)`: the members of the array in the order of
their first occurrence. -/
def newSet {α : Type} [DecidableEq α] (xs : List α) : List α :=
  xs.foldl setAdd []

/-- The outcome of a run of `ws.onmessage`: the set `activeUsers` afterwards,
the events handed to `onMessage` in order, and whether the `catch` clause ran. -/
structure WsResult where
  activeUsers : List JSString
  delivered : List RelayEnvelope
  caught : Bool := false
deriving DecidableEq, Repr

/-- The operand `data.mime || "application/octet-stream"`: a missing or empty
`mime` gives the default. -/
def mimeOrDefault : Option JSString → JSString
  | some (c :: cs) => c :: cs
  | _ => lit "application/octet-stream"

/-- The `type` of a `Blob` made with the option `type`: the option in ASCII
lower case, or the empty string when the option has a character outside the
range U+0020 to U+007E. -/
def blobType (t : JSString) : JSString :=
  if t.all (fun c => decide (32 ≤ c ∧ c ≤ 126)) then
    t.map (fun c => if 65 ≤ c ∧ c ≤ 90 then c + 32 else c)
  else []

/-- The handler `ws.onmessage` of `connectWebSocket`.  The argument is the
result of `JSON.parse(event.data)`, `none` when parsing throws. -/
def ws_onmessage (username : JSString) (activeUsers : List JSString) :
    Option RelayEnvelope → WsResult
  | none => { activeUsers := activeUsers, delivered := [], caught := true }
  | some data =>
    if data.type = lit "users" then
      let users := newSet (data.list.getD [])
      { activeUsers := users,
        delivered := [{ type := lit "users", list := some users }] }
    else if data.type = lit "chat" ∧ data.sender = some username then
      { activeUsers := activeUsers, delivered := [] }
    else if data.type = lit "file_chunk" then
      match atob (stringOfProp data.chunk) with
      | none => { activeUsers := activeUsers, delivered := [], caught := true }
      | some bytes =>
        { activeUsers := activeUsers,
          delivered := [{ type := lit "file", sender := data.sender,
                          filename := data.filename,
                          blob := some { bytes := bytes,
                                         type := blobType (mimeOrDefault data.mime) } }] }
    else { activeUsers := activeUsers, delivered := [data] }

/-! ## Sending a file -/

/-- A `File`: its `name`, its `type` and the bytes `arrayBuffer()` yields. -/
structure File where
  name : JSString
  type : JSString
  bytes : List Nat
deriving DecidableEq, Repr

/-- The property `file.size`. -/
def File.size (file : File) : Nat := file.bytes.length

/-- The constant `chunkSize` of `localDC.sendFile`. -/
def chunkSize : Nat := 16000

/-- The values of `readyState` of an `RTCDataChannel`: the strings
`"connecting"`, `"open"`, `"closing"` and `"closed"`. -/
inductive DcState where
  | connecting
  | open
  | closing
  | closed
deriving DecidableEq, Repr

/-- The data channel as one call of `localDC.sendFile` meets it: its
`readyState` when the call starts, and for each call of `ch.send` (numbered
from 0) whether it succeeds; `ch.send` throws on a channel that has left the
open state. -/
structure ChannelView where
  readyState : DcState
  sendOk : Nat → Bool

/-- The outcome of a call of `sendFile`: the envelopes handed to `send` that
went out, in order; the number of calls of `send`; whether the call threw. -/
structure SendFileResult (χ : Type) where
  emitted : List (Envelope χ)
  attempts : Nat
  threw : Bool

/-- The loop of `localDC.sendFile` from offset `i` on, `k` being the number of
calls of `ch.send` made so far.  The first argument bounds the number of
iterations; `none` is returned only when that bound is reached. -/
def sendLoop (username : JSString) (file : File) (sendOk : Nat → Bool) :
    Nat → Nat → Nat → Option (SendFileResult (List Nat))
  | 0, _, _ => none
  | fuel + 1, k, i =>
    if i < file.bytes.length then
      if sendOk k then
        (sendLoop username file sendOk fuel (k + 1) (i + chunkSize)).map fun rest =>
          { emitted :=
              { type := lit "file_chunk", sender := some username,
                filename := some file.name,
                chunk := some ((file.bytes.drop i).take chunkSize),
                endFlag := decide (i + chunkSize ≥ file.bytes.length) } :: rest.emitted,
            attempts := rest.attempts + 1,
            threw := rest.threw }
      else some { emitted := [], attempts := 1, threw := true }
    else some { emitted := [], attempts := 0, threw := false }

/-- The method `localDC.sendFile` of the peer transport.  Every iteration of
the loop advances by `chunkSize` bytes, so one more iteration than there are
bytes is a bound that is never reached. -/
def localDC_sendFile (username : JSString) (ch : ChannelView) (file : File) :
    Option (SendFileResult (List Nat)) :=
  if ch.readyState = DcState.open then
    sendLoop username file ch.sendOk (file.bytes.length + 1) 0 0
  else some { emitted := [], attempts := 0, threw := true }

/-- The method `ws.sendFile` of the relayed transport; `readyState` is the
socket's `readyState` when the call starts (1 is `WebSocket.OPEN`).  All bytes
of the file are spread into one call of `String.fromCharCode`, which throws a
RangeError when there are more than `maxArgs` of them; `btoa` throws on a code
unit above 255.  When either throws nothing is sent. -/
def ws_sendFile (maxArgs : Nat) (username : JSString) (readyState : Nat) (file : File) :
    SendFileResult JSString :=
  if readyState ≠ 1 then { emitted := [], attempts := 0, threw := false }
  else if file.bytes.length > maxArgs then { emitted := [], attempts := 0, threw := true }
  else if file.bytes.all (fun b => decide (b < 256)) then
    { emitted := [{ type := lit "file_chunk", sender := some username,
                    filename := some file.name, chunk := some (btoa file.bytes),
                    mime := some file.type }],
      attempts := 1, threw := false }
  else { emitted := [], attempts := 0, threw := true }

/-! ## The application: `App.jsx` -/

/-- The address shown for a file in the chat: `m.fileUrl` when it is a
non-empty string, else an object URL for `m.blob`, else `null`. -/
inductive FileUrl where
  | given (url : JSString)
  | object (blob : Blob)
  | null
deriving DecidableEq, Repr

/-- An entry of the `messages` state of `App` (without its `ts`). -/
inductive ChatItem (χ : Type) where
  | system (text : JSString)
  | file (sender filename : Option JSString) (fileUrl : FileUrl) (isImage : Bool)
  | plain (m : Envelope χ)
deriving DecidableEq, Repr

/-- The state of `App` that `onMessage` updates.  A member of `users` is a
string or `undefined` (`none`). -/
structure AppState (χ : Type) where
  users : List (Option JSString)
  messages : List (ChatItem χ)
  isTyping : Bool
deriving DecidableEq, Repr

/-- The ASCII lower-case form of a code unit. -/
def lowerAscii (c : Nat) : Nat := if 65 ≤ c ∧ c ≤ 90 then c + 32 else c

/-- The test of the regular expression that recognises image names: the name
ends in `.jpg`, `.jpeg`, `.png`, `.gif` or `.webp`, letter case ignored. -/
def isImageName (name : JSString) : Bool :=
  [lit ".jpg", lit ".jpeg", lit ".png", lit ".gif", lit ".webp"].any
    (fun ext => ext.isSuffixOf (name.map lowerAscii))

/-- The operand `m.fileUrl || (m.blob ? URL.createObjectURL(m.blob) : null)`. -/
def fileUrlOf {χ : Type} (m : Envelope χ) : FileUrl :=
  match m.fileUrl with
  | some (c :: cs) => .given (c :: cs)
  | _ =>
    match m.blob with
    | some b => .object b
    | none => .null

/-- The handler `onMessage` that `startConnection` passes to the transports. -/
def App_onMessage {χ : Type} (username : JSString) (s : AppState χ) (m : Envelope χ) :
    AppState χ :=
  if m.type = lit "users" then { s with users := (m.list.getD []).map some }
  else if m.sender = some username then s
  else if m.type = lit "join" then
    { s with users := setAdd (newSet s.users) m.username,
             messages := s.messages ++
               [.system (stringOfProp m.username ++ lit " joined the chat")] }
  else if m.type = lit "leave" then
    { s with users := setDelete (newSet s.users) m.username,
             messages := s.messages ++
               [.system (stringOfProp m.username ++ lit " left the chat")] }
  else if m.type = lit "typing" then { s with isTyping := true }
  else if m.type = lit "file" ∨ m.type = lit "file_chunk" then
    { s with messages := s.messages ++
        [.file m.sender m.filename (fileUrlOf m) (isImageName (m.filename.getD []))] }
  else { s with messages := s.messages ++ [.plain m] }

/-- The state of `App` after the events of a list have been handed to
`onMessage` one after the other. -/
def App_deliver {χ : Type} (username : JSString) (s : AppState χ)
    (events : List (Envelope χ)) : AppState χ :=
  events.foldl (App_onMessage username) s

/-- The object in `netRef.current`: the relayed socket, whose `readyState` is a
number, or the data channel `localDC`, whose `readyState` is a string. -/
inductive Conn where
  | relayed (readyState : Nat)
  | peer (ch : ChannelView)

/-- The test `netRef.current.readyState !== WebSocket.OPEN`, the constant
`WebSocket.OPEN` being the number 1: a string is never strictly equal to it. -/
def notWsOpen : Conn → Bool
  | .relayed readyState => decide (readyState ≠ 1)
  | .peer _ => true

/-- A toast: its message and its type. -/
structure Toast where
  message : JSString
  type : JSString
deriving DecidableEq, Repr

/-- The result of `readAsDataURL`: `data:`, the type of the file (or the
default type), `;base64,` and the base-64 text of the bytes. -/
def dataUrl (file : File) : JSString :=
  lit "data:" ++ mimeOrDefault (some file.type) ++ lit ";base64," ++ btoa file.bytes

/-- What a call of the file handler `onFile` of `App` does: the toasts it
raises, the entry it appends to `messages`, whether it calls `sendFile`, and the
envelopes that call emits on the relayed socket or on the data channel. -/
structure FileHandlerResult where
  toasts : List Toast
  localMessage : Option (ChatItem JSString)
  sendFileCalled : Bool
  relayEmitted : List RelayEnvelope
  peerEmitted : List PeerEnvelope

/-- The ceiling of the file handler: `60 * 1024 * 1024`. -/
def maxFileSize : Nat := 60 * 1024 * 1024

/-- The handler `onFile` that `App` passes to `InputBar`, with the `onload`
callback of its `FileReader`; `conn` is `netRef.current` and `maxArgs` the
argument limit of the engine, which `sendFile` of the relayed transport meets. -/
def App_onFile (maxArgs : Nat) (username : JSString) (conn : Option Conn) (file : File) :
    FileHandlerResult :=
  if file.size > maxFileSize then
    { toasts := [{ message := lit "❌ File too large (limit 60 MB)", type := lit "error" }],
      localMessage := none, sendFileCalled := false, relayEmitted := [], peerEmitted := [] }
  else
    match conn with
    | none =>
      { toasts := [{ message := lit "⚠️ Not connected to server", type := lit "warning" }],
        localMessage := none, sendFileCalled := false, relayEmitted := [],
        peerEmitted := [] }
    | some c =>
      if notWsOpen c then
        { toasts := [{ message := lit "⚠️ Not connected to server", type := lit "warning" }],
          localMessage := none, sendFileCalled := false, relayEmitted := [],
          peerEmitted := [] }
      else
        let item : ChatItem JSString :=
          .file (some username) (some file.name) (.given (dataUrl file))
            (isImageName file.name)
        let uploading : Toast :=
          { message := lit "📤 Uploading " ++ file.name ++ lit "...", type := lit "info" }
        let done : Toast :=
          { message := lit "✅ Sent " ++ file.name, type := lit "success" }
        match c with
        | .relayed readyState =>
          let r := ws_sendFile maxArgs username readyState file
          { toasts := if r.threw then [uploading] else [uploading, done],
            localMessage := some item, sendFileCalled := true,
            relayEmitted := r.emitted, peerEmitted := [] }
        | .peer ch =>
          match localDC_sendFile username ch file with
          | none =>
            { toasts := [uploading], localMessage := some item, sendFileCalled := true,
              relayEmitted := [], peerEmitted := [] }
          | some r =>
            { toasts := if r.threw then [uploading] else [uploading, done],
              localMessage := some item, sendFileCalled := true,
              relayEmitted := [], peerEmitted := r.emitted }

/-! ## Closing a connection -/

/-- The relayed socket as far as closing is concerned: its `readyState`
(0 connecting, 1 open, 2 closing, 3 closed) and whether `ws.onclose` still is
the handler `connectWebSocket` installed, the one that calls `onClose`. -/
structure WsConn where
  readyState : Nat
  oncloseSet : Bool
deriving DecidableEq, Repr

/-- The socket right after `connectWebSocket` has returned. -/
def WsConn.initial : WsConn := { readyState := 0, oncloseSet := true }

/-- Whether the browser calls of one run of `ws._safeClose` throw. -/
structure WsCloseEnv where
  sendThrows : Bool
  closeThrows : Bool
deriving DecidableEq, Repr

/-- A call made on the relayed socket. -/
inductive WsCall where
  | send (m : RelayEnvelope)
  | close
deriving DecidableEq, Repr

/-- The effect of the method `close()` on the `readyState` of a socket: a
socket that is connecting or open starts closing, otherwise nothing changes. -/
def wsCloseState (readyState : Nat) : Nat :=
  if readyState = 0 ∨ readyState = 1 then 2 else readyState

/-- The relayed transport while it is followed through close calls and close
events: the socket, the number of `onClose` notifications made so far, and the
calls made on the socket so far. -/
structure WsRun where
  conn : WsConn
  onCloseCount : Nat
  calls : List WsCall
deriving DecidableEq, Repr

/-- The method `ws._safeClose`: a `leave` envelope is sent when the socket is
open; then `ws.onclose` is set to `null` and the socket is closed.  Both parts
swallow what they throw. -/
def ws_safeClose (username : JSString) (env : WsCloseEnv) (r : WsRun) : WsRun :=
  let leave : List WsCall :=
    if r.conn.readyState = 1 then
      [.send { type := lit "leave", username := some username }]
    else []
  { conn := { readyState :=
                if env.closeThrows then r.conn.readyState
                else wsCloseState r.conn.readyState,
              oncloseSet := false },
    onCloseCount := r.onCloseCount,
    calls := r.calls ++ leave ++ [.close] }

/-- The browser fires `close` on the relayed socket, once, when the connection
has ended: the socket is closed and the handler in `ws.onclose`, if there still
is one, calls `onClose`. -/
def ws_closeEvent (r : WsRun) : WsRun :=
  if r.conn.readyState = 3 then r
  else
    { conn := { r.conn with readyState := 3 },
      onCloseCount := if r.conn.oncloseSet then r.onCloseCount + 1 else r.onCloseCount,
      calls := r.calls }

/-- What can happen to the relayed transport from outside: a call of
`_safeClose`, or the `close` event of the socket. -/
inductive WsStep where
  | safeClose (env : WsCloseEnv)
  | closeEvent
deriving DecidableEq, Repr

/-- One step of the relayed transport. -/
def ws_step (username : JSString) (r : WsRun) : WsStep → WsRun
  | .safeClose env => ws_safeClose username env r
  | .closeEvent => ws_closeEvent r

/-- A sequence of steps of the relayed transport. -/
def ws_run (username : JSString) (r : WsRun) (steps : List WsStep) : WsRun :=
  steps.foldl (ws_step username) r

/-- The peer transport as far as closing is concerned: the channel `localDC`,
the channel received through `ondatachannel` if there is one (the variable `dc`
then refers to it, otherwise to `localDC`), whether `pc` has been closed, and
the `readyState` of the signaling socket. -/
structure PeerConn where
  localDC : DcState
  remoteDC : Option DcState
  pcClosed : Bool
  signalWs : Nat
deriving DecidableEq, Repr

/-- Whether the browser calls of one run of `localDC._safeClose` throw. -/
structure PeerCloseEnv where
  dcCloseThrows : Bool
  pcCloseThrows : Bool
  signalCloseThrows : Bool
deriving DecidableEq, Repr

/-- The effect of the method `close()` on a data channel: a channel that is
connecting or open starts closing. -/
def dcCloseState : DcState → DcState
  | .connecting => .closing
  | .open => .closing
  | s => s

/-- The statement `if (dc) dc.close()`: the channel `dc` refers to is closed. -/
def closeCurrentChannel (s : PeerConn) : PeerConn :=
  match s.remoteDC with
  | some st => { s with remoteDC := some (dcCloseState st) }
  | none => { s with localDC := dcCloseState s.localDC }

/-- The method `pc.close()`: the connection is closed and with it every data
channel it has. -/
def closePeerConnection (s : PeerConn) : PeerConn :=
  { s with pcClosed := true, localDC := .closed,
           remoteDC := s.remoteDC.map (fun _ => DcState.closed) }

/-- The statement
`if (signalWs && signalWs.readyState === WebSocket.OPEN) signalWs.close()`. -/
def closeSignaling (s : PeerConn) : PeerConn :=
  if s.signalWs = 1 then { s with signalWs := 2 } else s

/-- The method `localDC._safeClose`: three parts, each of which swallows what
it throws. -/
def localDC_safeClose (env : PeerCloseEnv) (s : PeerConn) : PeerConn :=
  let s1 := if env.dcCloseThrows then s else closeCurrentChannel s
  let s2 := if env.pcCloseThrows then s1 else closePeerConnection s1
  if env.signalCloseThrows then s2 else closeSignaling s2

/-- The handler `signalWs.onclose`, run when the signaling socket has closed:
`dc?._safeClose?.()` calls `_safeClose` when `dc` has that method, which only
`localDC` has; then `onClose` is called.  The result is the state and the
number of `onClose` notifications made. -/
def signalWs_onclose (env : PeerCloseEnv) (s : PeerConn) : PeerConn × Nat :=
  let closed : PeerConn := { s with signalWs := 3 }
  match s.remoteDC with
  | none => (localDC_safeClose env closed, 1)
  | some _ => (closed, 1)

/-! ## Glare -/

/-- An incoming offer is dropped: the run applies nothing and sends nothing. -/
def Dropped (r : SigResult) : Prop := r.effects = []

/-- An incoming offer with description `desc` is accepted: the run sets it as
the remote description, creates an answer, sets the answer as the local
description and sends one answer on the signaling socket, and nothing else. -/
def Accepted (cfg : PeerConfig) (desc : Option SessionDescription) (r : SigResult) : Prop :=
  ∃ answer localDescription,
    r.effects =
      [.setRemoteDescription desc, .createAnswer, .setLocalDescription answer,
       .signalSend { type := lit "answer", room := some cfg.room,
                     username := some cfg.username, sdp := localDescription }]

/-- Every browser call of a run of the signaling handler succeeds. -/
def PcEnv.allOk (env : PcEnv) : Prop :=
  env.createOffer.isSome ∧ env.createAnswer.isSome ∧ env.setLocalDescriptionOk = true ∧
    env.setRemoteDescriptionOk = true ∧ env.addIceCandidateOk = true ∧
    env.signalSendOk = true

/-- A browser whose calls all succeed, with `state` as the signaling state. -/
def okEnv (state : SignalingState) : PcEnv :=
  { signalingState := state,
    createOffer := some { type := lit "offer", sdp := lit "o" },
    createAnswer := some { type := lit "answer", sdp := lit "a" },
    setLocalDescriptionOk := true, setRemoteDescriptionOk := true,
    addIceCandidateOk := true,
    localDescription := some { type := lit "answer", sdp := lit "a" },
    signalSendOk := true }

/-- The test whether an effect is a send on the signaling socket. -/
def SigEffect.isSend : SigEffect → Bool
  | .signalSend _ => true
  | _ => false

/-- A file of one byte more than 60 MB. -/
def bigFile : File :=
  { name := lit "big.bin", type := [], bytes := List.replicate (60 * 1024 * 1024 + 1) 0 }

/-- A file of 131072 zero bytes (128 KiB), far below the ceiling of the file
handler. -/
def largeFile : File :=
  { name := lit "clip.bin", type := lit "application/octet-stream",
    bytes := List.replicate 131072 0 }

/-- A single chunk of 200000 zero bytes for the file `a.png`, marked `end`. -/
def longChunk : PeerEnvelope :=
  { type := lit "file_chunk", sender := some (lit "alice"), filename := some (lit "a.png"),
    chunk := some (List.replicate 200000 0), endFlag := true }

/-! ## Transport and application together -/

/-- The relayed transport with the application behind it: the set
`activeUsers` of the transport and the state of `App`. -/
structure RelayClient where
  activeUsers : List JSString
  app : AppState JSString
deriving DecidableEq, Repr

/-- A payload arrives on the relayed socket: `ws.onmessage` runs, and what it
hands to `onMessage` is processed by `App`. -/
def relay_receive (username : JSString) (c : RelayClient) (p : Option RelayEnvelope) :
    RelayClient :=
  let r := ws_onmessage username c.activeUsers p
  { activeUsers := r.activeUsers, app := App_deliver username c.app r.delivered }

/-- The events a run of the signaling handler hands to `onMessage`. -/
def upwardOf (effects : List SigEffect) : List PeerEnvelope :=
  effects.filterMap (fun e => match e with | .onMessage m => some m | _ => none)

/-- The peer transport with the application behind it: the negotiation
variables, the chunk buffer and the state of `App`. -/
structure PeerClient where
  negotiation : Negotiation
  fileBuffer : FileBuffer
  app : AppState (List Nat)

/-- A payload arrives on the signaling socket: `signalWs.onmessage` runs, and
what it hands to `onMessage` is processed by `App`. -/
def peer_signal (cfg : PeerConfig) (env : PcEnv) (c : PeerClient) (p : Option SignalMsg) :
    PeerClient :=
  let r := signalWs_onmessage cfg env c.negotiation p
  { negotiation := r.state, fileBuffer := c.fileBuffer,
    app := App_deliver cfg.username c.app (upwardOf r.effects) }

/-- A payload arrives on the data channel: `dc.onmessage` runs, and what it
hands to `onMessage` is processed by `App`. -/
def peer_receive (maxArgs : Nat) (cfg : PeerConfig) (c : PeerClient)
    (p : Option PeerEnvelope) : PeerClient :=
  let r := dc_onmessage maxArgs cfg.username c.fileBuffer p
  { negotiation := c.negotiation, fileBuffer := r.fileBuffer,
    app := App_deliver cfg.username c.app r.delivered }

/-! ## Exceptions in the close methods -/

/-- How a block of statements ends: normally, or by throwing; in both cases
with the state reached at that point. -/
inductive Completion (σ : Type) where
  | normal (s : σ)
  | thrown (s : σ)
deriving DecidableEq, Repr

/-- The statement `try { block } catch (_) {}`: however the block ends, the
statement ends normally, in the state the block had reached. -/
def tryCatch {σ : Type} : Completion σ → Completion σ
  | .normal s => .normal s
  | .thrown s => .normal s

/-- Two statements in sequence: the second runs when the first has ended
normally; a throw of the first is the throw of the sequence. -/
def Completion.andThen {σ : Type} (c : Completion σ) (next : σ → Completion σ) :
    Completion σ :=
  match c with
  | .normal s => next s
  | .thrown s => .thrown s

/-- The block of the first `try` of `ws._safeClose`: when the socket is open a
`leave` envelope is handed to `ws.send`, which may throw. -/
def ws_leaveBlock (username : JSString) (env : WsCloseEnv) (r : WsRun) : Completion WsRun :=
  if r.conn.readyState = 1 then
    let sent : WsRun :=
      { r with calls := r.calls ++ [.send { type := lit "leave", username := some username }] }
    if env.sendThrows then .thrown sent else .normal sent
  else .normal r

/-- The block of the second `try` of `ws._safeClose`: `ws.onclose = null`, then
`ws.close()`, which may throw. -/
def ws_closeBlock (env : WsCloseEnv) (r : WsRun) : Completion WsRun :=
  let detached : WsRun :=
    { r with conn := { r.conn with oncloseSet := false }, calls := r.calls ++ [.close] }
  if env.closeThrows then .thrown detached
  else .normal { detached with
                 conn := { readyState := wsCloseState r.conn.readyState, oncloseSet := false } }

/-- The method `ws._safeClose` with its two `try` statements written out. -/
def ws_safeClose_completion (username : JSString) (env : WsCloseEnv) (r : WsRun) :
    Completion WsRun :=
  (tryCatch (ws_leaveBlock username env r)).andThen
    (fun afterLeave => tryCatch (ws_closeBlock env afterLeave))

/-- The block of the first `try` of `localDC._safeClose`: `if (dc) dc.close()`. -/
def dcCloseBlock (env : PeerCloseEnv) (s : PeerConn) : Completion PeerConn :=
  if env.dcCloseThrows then .thrown s else .normal (closeCurrentChannel s)

/-- The block of the second `try` of `localDC._safeClose`: `pc.close()`. -/
def pcCloseBlock (env : PeerCloseEnv) (s : PeerConn) : Completion PeerConn :=
  if env.pcCloseThrows then .thrown s else .normal (closePeerConnection s)

/-- The block of the third `try` of `localDC._safeClose`: the signaling socket
is closed when it is open; only that call may throw. -/
def signalCloseBlock (env : PeerCloseEnv) (s : PeerConn) : Completion PeerConn :=
  if s.signalWs = 1 then
    if env.signalCloseThrows then .thrown s else .normal { s with signalWs := 2 }
  else .normal s

/-- The method `localDC._safeClose` with its three `try` statements written
out. -/
def localDC_safeClose_completion (env : PeerCloseEnv) (s : PeerConn) : Completion PeerConn :=
  (tryCatch (dcCloseBlock env s)).andThen (fun s1 =>
    (tryCatch (pcCloseBlock env s1)).andThen (fun s2 =>
      tryCatch (signalCloseBlock env s2)))

/-! ## The signaling handler, assignment by assignment -/

/-- A step of a run of the signaling handler: a call, or an assignment to one
of the three negotiation variables. -/
inductive SigStep where
  | call (e : SigEffect)
  | setPolite (b : Bool)
  | setMakingOffer (b : Bool)
  | setIgnoreOffer (b : Bool)
deriving DecidableEq, Repr

/-- The handler `signalWs.onmessage` as the sequence of its calls and
assignments, in the order of the source: in the `peer-joined` branch
`polite = ...`, `makingOffer = true`, the offer construction, and in the
`finally` clause `makingOffer = false`; in the offer branch `ignoreOffer = ...`
and the acceptance steps. -/
def signalWs_onmessage_steps (cfg : PeerConfig) (env : PcEnv) (st : Negotiation) :
    Option SignalMsg → List SigStep
  | none => []
  | some msg =>
    if msg.type = lit "users" then
      [.call (.onMessage { type := lit "users", list := msg.list })]
    else if msg.type = lit "peer-left" then
      [.call (.onMessage { type := lit "leave", username := msg.username })]
    else if msg.type = lit "peer-joined" then
      if notSelf cfg msg then
        [.call (.onMessage { type := lit "join", username := msg.username }),
         .setPolite (jsGtProp cfg.username msg.username),
         .setMakingOffer true] ++
          (offerSteps cfg env).map SigStep.call ++ [.setMakingOffer false]
      else [.call (.onMessage { type := lit "join", username := msg.username })]
    else if msg.type = lit "offer" && notSelf cfg msg then
      if !st.polite && offerCollision st env then [.setIgnoreOffer true]
      else .setIgnoreOffer false :: (answerSteps cfg env msg.sdp).map SigStep.call
    else if msg.type = lit "answer" && notSelf cfg msg then
      [.call (.setRemoteDescription msg.sdp)]
    else if msg.type = lit "ice" && notSelf cfg msg then
      match msg.candidate with
      | none => []
      | some [] => []
      | some (c :: cs) => [.call (.addIceCandidate (c :: cs))]
    else []

/-- The effect of one step on the negotiation variables. -/
def SigStep.apply (st : Negotiation) : SigStep → Negotiation
  | .call _ => st
  | .setPolite b => { st with polite := b }
  | .setMakingOffer b => { st with makingOffer := b }
  | .setIgnoreOffer b => { st with ignoreOffer := b }

/-- The calls among a sequence of steps. -/
def callsOf (steps : List SigStep) : List SigEffect :=
  steps.filterMap (fun s => match s with | .call e => some e | _ => none)

/-- The value of `makingOffer` at each call of a sequence of steps that starts
with `makingOffer = flag`. -/
def makingOfferAtCalls (flag : Bool) : List SigStep → List (SigEffect × Bool)
  | [] => []
  | .call e :: rest => (e, flag) :: makingOfferAtCalls flag rest
  | .setMakingOffer b :: rest => makingOfferAtCalls b rest
  | _ :: rest => makingOfferAtCalls flag rest

/-- The calls of the offer construction: `createOffer`, `setLocalDescription`
and the send of an `offer` message. -/
def SigEffect.isOfferConstruction : SigEffect → Bool
  | .createOffer => true
  | .setLocalDescription _ => true
  | .signalSend m => decide (m.type = lit "offer")
  | _ => false

/-! ## Base 64, value by value -/

/-- The six-bit values of the characters `btoa` writes for a sequence of
bytes, without the padding. -/
def sextetsOf : List Nat → List Nat
  | a :: b :: c :: rest =>
    (a / 4) :: (a % 4 * 16 + b / 16) :: (b % 16 * 4 + c / 64) :: (c % 64) :: sextetsOf rest
  | [a, b] => [a / 4, a % 4 * 16 + b / 16, b % 16 * 4]
  | [a] => [a / 4, a % 4 * 16]
  | [] => []

/-- The padding `btoa` writes after the characters of a sequence of bytes. -/
def paddingOf : List Nat → List Nat
  | _ :: _ :: _ :: rest => paddingOf rest
  | [_, _] => [61]
  | [_] => [61, 61]
  | [] => []

/-! ## The connection object as the file handler sees it -/

/-- The string a state of a data channel is written as. -/
def DcState.toJSString : DcState → JSString
  | .connecting => lit "connecting"
  | .open => lit "open"
  | .closing => lit "closing"
  | .closed => lit "closed"

/-- The value of the property `readyState` of the connection object: a number
on a `WebSocket`, a string on an `RTCDataChannel`. -/
inductive ReadyStateValue where
  | number (n : Nat)
  | string (s : JSString)
deriving DecidableEq, Repr

/-- The strict inequality `readyState !== WebSocket.OPEN`, the constant being
the number 1: values of different types are never strictly equal. -/
def ReadyStateValue.notWsOpen : ReadyStateValue → Bool
  | .number n => decide (n ≠ 1)
  | .string _ => true

/-- The properties of the object in `netRef.current` that the file handler
reads: `readyState`, and whether the methods `sendFile` and `sendMessage` are
defined on it. -/
structure ConnObject where
  readyState : ReadyStateValue
  hasSendFile : Bool
  hasSendMessage : Bool
deriving DecidableEq, Repr

/-- The object each transport returns: `connectWebSocket` returns the socket
and `connectWebRTC` returns `localDC`; both define `sendMessage` and
`sendFile` on it. -/
def Conn.object : Conn → ConnObject
  | .relayed readyState =>
    { readyState := .number readyState, hasSendFile := true, hasSendMessage := true }
  | .peer ch =>
    { readyState := .string ch.readyState.toJSString, hasSendFile := true,
      hasSendMessage := true }

/-- A method of the connection object that the file handler calls. -/
inductive ConnMethod where
  | sendFile
  | sendMessage
deriving DecidableEq, Repr

/-- The methods of the connection object that the handler `onFile` calls for a
file, in order: none when the file is over the ceiling, when there is no
connection object or when its `readyState` is not strictly equal to
`WebSocket.OPEN`; otherwise `sendFile` when the object defines it, else
`sendMessage` when the object defines that. -/
def App_onFile_calls (conn : Option ConnObject) (file : File) : List ConnMethod :=
  if file.size > maxFileSize then []
  else
    match conn with
    | none => []
    | some c =>
      if c.readyState.notWsOpen then []
      else if c.hasSendFile then [.sendFile]
      else if c.hasSendMessage then [.sendMessage]
      else []

/-- The types of the signaling messages that drive the negotiation. -/
def negotiationTypes : List JSString :=
  [lit "peer-joined", lit "offer", lit "answer", lit "ice"]

/-- The test whether an effect of the signaling handler is a negotiation
action: a call on the peer connection or a send on the signaling socket. -/
def SigEffect.isNegotiation : SigEffect → Bool
  | .onMessage _ => false
  | _ => true

/-! # Properties -/

/-! ## String comparison and the polite role -/

theorem jsStrLt_irrefl (a : JSString) : jsStrLt a a = false := by
  induction a with
  | nil => rfl
  | cons x xs ih => simp [jsStrLt, ih]

theorem jsStrLt_total (a b : JSString) (h : a ≠ b) :
    jsStrLt a b = !jsStrLt b a := by
  induction a generalizing b with
  | nil =>
    cases b with
    | nil => exact absurd rfl h
    | cons y ys => simp [jsStrLt]
  | cons x xs ih =>
    cases b with
    | nil => simp [jsStrLt]
    | cons y ys =>
      by_cases hxy : x = y
      · subst hxy
        have hne : xs ≠ ys := fun hxs => h (by rw [hxs])
        simp [jsStrLt, ih ys hne]
      · have hyx : ¬ y = x := fun e => hxy e.symm
        simp only [jsStrLt, hxy, hyx, if_false]
        by_cases hlt : x < y
        · have : ¬ y < x := by omega
          simp [hlt, this]
        · have : y < x := by omega
          simp [hlt, this]

theorem lit_peer_joined_ne_users : lit "peer-joined" ≠ lit "users" := by decide

theorem lit_peer_joined_ne_peer_left : lit "peer-joined" ≠ lit "peer-left" := by decide

theorem lit_offer_ne_users : lit "offer" ≠ lit "users" := by decide

theorem lit_offer_ne_peer_left : lit "offer" ≠ lit "peer-left" := by decide

theorem lit_offer_ne_peer_joined : lit "offer" ≠ lit "peer-joined" := by decide

/-- The state a run of the `peer-joined` branch leaves, for a message from
another user. -/
theorem peer_joined_polite (cfg : PeerConfig) (env : PcEnv) (st : Negotiation)
    (msg : SignalMsg) (ht : msg.type = lit "peer-joined")
    (hu : msg.username ≠ some cfg.username) :
    (signalWs_onmessage cfg env st (some msg)).state.polite =
      jsGtProp cfg.username msg.username := by
  simp [signalWs_onmessage, ht, lit_peer_joined_ne_users, lit_peer_joined_ne_peer_left,
    notSelf, hu]

/-- The run of the handler on an offer from another user. -/
theorem offer_run (cfg : PeerConfig) (env : PcEnv) (st : Negotiation)
    (msg : SignalMsg) (ht : msg.type = lit "offer")
    (hu : msg.username ≠ some cfg.username) :
    signalWs_onmessage cfg env st (some msg) =
      if !st.polite && offerCollision st env then
        { state := { st with ignoreOffer := true }, effects := [] }
      else
        { state := { st with ignoreOffer := false },
          effects := answerSteps cfg env msg.sdp,
          caught := answerThrows env } := by
  simp [signalWs_onmessage, ht, lit_offer_ne_users, lit_offer_ne_peer_left,
    lit_offer_ne_peer_joined, notSelf, hu]

theorem answerSteps_ne_nil (cfg : PeerConfig) (env : PcEnv)
    (desc : Option SessionDescription) : answerSteps cfg env desc ≠ [] := by
  unfold answerSteps
  split
  · split
    · simp
    · split <;> simp
  · simp

theorem answerSteps_allOk (cfg : PeerConfig) (env : PcEnv) (st : Negotiation) (c : Bool)
    (desc : Option SessionDescription) (hok : env.allOk) :
    Accepted cfg desc
      { state := st, effects := answerSteps cfg env desc, caught := c } := by
  obtain ⟨_, hans, hloc, hrem, _, _⟩ := hok
  obtain ⟨answer, hanswer⟩ := Option.isSome_iff_exists.mp hans
  refine ⟨answer, env.localDescription, ?_⟩
  simp [answerSteps, hrem, hanswer, hloc]

/-- When the browser calls succeed the acceptance of an offer is the full
sequence, with the answer the browser created and the local description the
browser holds. -/
theorem answerSteps_pinned (cfg : PeerConfig) (env : PcEnv)
    (desc : Option SessionDescription) (hok : env.allOk) :
    ∃ answer, env.createAnswer = some answer ∧
      answerSteps cfg env desc =
        [.setRemoteDescription desc, .createAnswer, .setLocalDescription answer,
         .signalSend { type := lit "answer", room := some cfg.room,
                       username := some cfg.username, sdp := env.localDescription }] := by
  obtain ⟨_, hans, hloc, hrem, _, _⟩ := hok
  obtain ⟨answer, hanswer⟩ := Option.isSome_iff_exists.mp hans
  refine ⟨answer, hanswer, ?_⟩
  simp [answerSteps, hrem, hanswer, hloc]

theorem jsStrGt_exactly_one (a b : JSString) (h : a ≠ b) :
    (jsStrGt a b = true ∧ jsStrGt b a = false) ∨
      (jsStrGt a b = false ∧ jsStrGt b a = true) := by
  have htot := jsStrLt_total a b h
  unfold jsStrGt
  cases hlt : jsStrLt b a <;> simp [hlt] at htot ⊢ <;> exact htot

theorem okEnv_allOk (state : SignalingState) : (okEnv state).allOk := by
  simp [okEnv, PcEnv.allOk]

theorem offerCollision_iff (st : Negotiation) (env : PcEnv) :
    offerCollision st env = true ↔
      (st.makingOffer = true ∨ env.signalingState ≠ .stable) := by
  simp [offerCollision]

/-- An impolite peer in a collision drops the offer. -/
theorem offer_dropped_of (cfg : PeerConfig) (env : PcEnv) (st : Negotiation)
    (msg : SignalMsg) (ht : msg.type = lit "offer")
    (hu : msg.username ≠ some cfg.username) (hp : st.polite = false)
    (hc : st.makingOffer = true ∨ env.signalingState ≠ .stable) :
    Dropped (signalWs_onmessage cfg env st (some msg)) := by
  have hcond : (!st.polite && offerCollision st env) = true := by
    simp [hp, (offerCollision_iff st env).mpr hc]
  rw [offer_run cfg env st msg ht hu, if_pos hcond]
  rfl

/-- A peer that is polite, or in no collision, runs the acceptance steps. -/
theorem offer_answered_of (cfg : PeerConfig) (env : PcEnv) (st : Negotiation)
    (msg : SignalMsg) (ht : msg.type = lit "offer")
    (hu : msg.username ≠ some cfg.username)
    (h : ¬ (st.polite = false ∧ (st.makingOffer = true ∨ env.signalingState ≠ .stable))) :
    (signalWs_onmessage cfg env st (some msg)).effects = answerSteps cfg env msg.sdp := by
  have hcond : ¬ (!st.polite && offerCollision st env) = true := by
    intro hc
    have hc2 : st.polite = false ∧ offerCollision st env = true := by simpa using hc
    exact h ⟨hc2.1, (offerCollision_iff st env).mp hc2.2⟩
  rw [offer_run cfg env st msg ht hu, if_neg hcond]

theorem answerSteps_head (cfg : PeerConfig) (env : PcEnv)
    (desc : Option SessionDescription) :
    (answerSteps cfg env desc).head? = some (.setRemoteDescription desc) := by
  simp only [answerSteps]
  split
  · split
    · rfl
    · split <;> rfl
  · rfl

theorem accepted_countP_send (cfg : PeerConfig) (desc : Option SessionDescription)
    (r : SigResult) (h : Accepted cfg desc r) : r.effects.countP SigEffect.isSend = 1 := by
  obtain ⟨answer, localDescription, heff⟩ := h
  rw [heff]
  rfl

/-- Claim C2. The polite role the `peer-joined` branch computes is
`localUsername > remoteUsername` by string comparison, whatever the state and
the browser's answers; and of two peers with distinct usernames that observe
`peer-joined` for each other, exactly one is polite. -/
theorem polite_role_symmetric (a b room : JSString) (hab : a ≠ b)
    (envA envB : PcEnv) (stA stB : Negotiation) (msgA msgB : SignalMsg) :
    let joinedB : SignalMsg := { msgA with type := lit "peer-joined", username := some b }
    let joinedA : SignalMsg := { msgB with type := lit "peer-joined", username := some a }
    let politeA :=
      (signalWs_onmessage { username := a, room := room } envA stA (some joinedB)).state.polite
    let politeB :=
      (signalWs_onmessage { username := b, room := room } envB stB (some joinedA)).state.polite
    politeA = jsStrGt a b ∧ politeB = jsStrGt b a ∧
      ((politeA = true ∧ politeB = false) ∨ (politeA = false ∧ politeB = true)) := by
  intro joinedB joinedA politeA politeB
  have hA : politeA = jsStrGt a b := by
    have := peer_joined_polite { username := a, room := room } envA stA joinedB rfl
      (by simp [joinedB]; exact fun e => hab e.symm)
    simpa [jsGtProp] using this
  have hB : politeB = jsStrGt b a := by
    have := peer_joined_polite { username := b, room := room } envB stB joinedA rfl
      (by simp [joinedA]; exact hab)
    simpa [jsGtProp] using this
  refine ⟨hA, hB, ?_⟩
  rw [hA, hB]
  exact jsStrGt_exactly_one a b hab

/-- Witness of C2 at the usernames `alice` and `bob`. -/
theorem polite_role_symmetric_witness :
    lit "alice" ≠ lit "bob" ∧
    (signalWs_onmessage { username := lit "alice", room := lit "r1" }
        (okEnv .stable) Negotiation.initial
        (some { type := lit "peer-joined", username := some (lit "bob") })).state.polite
      = jsStrGt (lit "alice") (lit "bob") :=
  ⟨by decide,
   (polite_role_symmetric (lit "alice") (lit "bob") (lit "r1") (by decide)
      (okEnv .stable) (okEnv .stable) Negotiation.initial Negotiation.initial
      { type := lit "peer-joined" } { type := lit "peer-joined" }).1⟩

/-! ## Offers: acceptance, drop and glare -/

/-- Claim C3. On an offer from another peer the handler drops the offer (no
description applied, nothing sent) exactly when the local role is impolite and
a collision exists (`makingOffer` or a signaling state other than stable); in
every other case it sets the offer as remote description first, and when the
browser calls succeed the run is exactly this: the offer is set as remote
description, an answer is created, the answer `createAnswer` returned is set as
local description, and one message is sent on the signaling socket, of type
`answer`, with the room and the username of the transport and with
`pc.localDescription` as its `sdp`. -/
theorem offer_dropped_iff_impolite_collision (cfg : PeerConfig) (env : PcEnv)
    (st : Negotiation) (msg : SignalMsg) (ht : msg.type = lit "offer")
    (hu : msg.username ≠ some cfg.username) :
    let r := signalWs_onmessage cfg env st (some msg)
    (Dropped r ↔
        (st.polite = false ∧ (st.makingOffer = true ∨ env.signalingState ≠ .stable))) ∧
      (¬ Dropped r → r.effects.head? = some (.setRemoteDescription msg.sdp)) ∧
      (¬ Dropped r → env.allOk →
        Accepted cfg msg.sdp r ∧ r.effects.countP SigEffect.isSend = 1) ∧
      (¬ Dropped r → env.allOk →
        ∃ answer, env.createAnswer = some answer ∧
          r.effects =
            [.setRemoteDescription msg.sdp, .createAnswer, .setLocalDescription answer,
             .signalSend { type := lit "answer", room := some cfg.room,
                           username := some cfg.username,
                           sdp := env.localDescription }]) := by
  intro r
  by_cases hcond :
      st.polite = false ∧ (st.makingOffer = true ∨ env.signalingState ≠ .stable)
  · have hd : Dropped r := offer_dropped_of cfg env st msg ht hu hcond.1 hcond.2
    exact ⟨⟨fun _ => hcond, fun _ => hd⟩, fun hnd => absurd hd hnd,
      fun hnd => absurd hd hnd, fun hnd => absurd hd hnd⟩
  · have heff : r.effects = answerSteps cfg env msg.sdp :=
      offer_answered_of cfg env st msg ht hu hcond
    have hnd : ¬ Dropped r := by
      unfold Dropped
      rw [heff]
      exact answerSteps_ne_nil cfg env msg.sdp
    refine ⟨⟨fun hd => absurd hd hnd, fun hc => absurd hc hcond⟩, ?_, ?_, ?_⟩
    · intro _
      rw [heff]
      exact answerSteps_head cfg env msg.sdp
    · intro _ hok
      have hacc : Accepted cfg msg.sdp r := by
        obtain ⟨answer, localDescription, h⟩ :=
          answerSteps_allOk cfg env st false msg.sdp hok
        exact ⟨answer, localDescription, by rw [heff]; exact h⟩
      exact ⟨hacc, accepted_countP_send cfg msg.sdp r hacc⟩
    · intro _ hok
      obtain ⟨answer, hanswer, hsteps⟩ := answerSteps_pinned cfg env msg.sdp hok
      exact ⟨answer, hanswer, by rw [heff]; exact hsteps⟩

/-- Witness of C3: the polite peer `bob` receives an offer from `alice` while
its own offer is pending, and accepts it: the answer the browser created is set
as local description and the local description of the browser is sent. -/
theorem offer_dropped_iff_impolite_collision_witness :
    (lit "offer" = lit "offer" ∧ some (lit "alice") ≠ some (lit "bob")) ∧
    ∃ answer, (okEnv .haveLocalOffer).createAnswer = some answer ∧
      (signalWs_onmessage { username := lit "bob", room := lit "r1" }
        (okEnv .haveLocalOffer)
        { makingOffer := false, ignoreOffer := false, polite := true }
        (some { type := lit "offer", username := some (lit "alice") })).effects =
        [.setRemoteDescription none, .createAnswer, .setLocalDescription answer,
         .signalSend { type := lit "answer", room := some (lit "r1"),
                       username := some (lit "bob"),
                       sdp := (okEnv .haveLocalOffer).localDescription }] :=
  ⟨⟨rfl, by decide⟩,
   (offer_dropped_iff_impolite_collision { username := lit "bob", room := lit "r1" }
      (okEnv .haveLocalOffer)
      { makingOffer := false, ignoreOffer := false, polite := true }
      { type := lit "offer", username := some (lit "alice") } rfl (by decide)).2.2.2
      (by unfold Dropped; decide) (okEnv_allOk _)⟩

/-- Claim C1. Glare.  Two peers `a` and `b` with distinct usernames have each
observed `peer-joined` for the other, and each is in an offer collision when
the offer of the other arrives.  Then exactly one of the two incoming offers is
accepted (set as remote description and answered, the browser calls
succeeding) and the other is dropped; the accepted offer is the one sent by the
peer whose `polite` flag is false. -/
theorem glare_exactly_one_offer_accepted (a b room : JSString) (hab : a ≠ b)
    (joinEnvA joinEnvB : PcEnv) (beforeA beforeB : Negotiation) (joinA joinB : SignalMsg)
    (stA stB : Negotiation)
    (hpA : stA.polite =
      (signalWs_onmessage { username := a, room := room } joinEnvA beforeA
        (some { joinA with type := lit "peer-joined", username := some b })).state.polite)
    (hpB : stB.polite =
      (signalWs_onmessage { username := b, room := room } joinEnvB beforeB
        (some { joinB with type := lit "peer-joined", username := some a })).state.polite)
    (envA envB : PcEnv) (hokA : envA.allOk) (hokB : envB.allOk)
    (hcA : stA.makingOffer = true ∨ envA.signalingState ≠ .stable)
    (hcB : stB.makingOffer = true ∨ envB.signalingState ≠ .stable)
    (offerA offerB : SignalMsg)
    (htA : offerA.type = lit "offer") (huA : offerA.username = some a)
    (htB : offerB.type = lit "offer") (huB : offerB.username = some b) :
    let atA := signalWs_onmessage { username := a, room := room } envA stA (some offerB)
    let atB := signalWs_onmessage { username := b, room := room } envB stB (some offerA)
    (Accepted { username := b, room := room } offerA.sdp atB ∧ Dropped atA ∧
        stA.polite = false ∧ stB.polite = true) ∨
      (Accepted { username := a, room := room } offerB.sdp atA ∧ Dropped atB ∧
        stB.polite = false ∧ stA.polite = true) := by
  intro atA atB
  have hneA : offerB.username ≠ some a := by
    rw [huB]; exact fun e => hab (Option.some.inj e).symm
  have hneB : offerA.username ≠ some b := by
    rw [huA]; exact fun e => hab (Option.some.inj e)
  have hA : stA.polite = jsStrGt a b := by
    rw [hpA, peer_joined_polite _ _ _ _ rfl (by simp; exact fun e => hab e.symm)]
    rfl
  have hB : stB.polite = jsStrGt b a := by
    rw [hpB, peer_joined_polite _ _ _ _ rfl (by simp; exact hab)]
    rfl
  have accept : ∀ (cfg : PeerConfig) (env : PcEnv) (st : Negotiation) (msg : SignalMsg),
      msg.type = lit "offer" → msg.username ≠ some cfg.username → st.polite = true →
      env.allOk → Accepted cfg msg.sdp (signalWs_onmessage cfg env st (some msg)) := by
    intro cfg env st msg ht hu hp hok
    have heff := offer_answered_of cfg env st msg ht hu (by simp [hp])
    obtain ⟨answer, localDescription, h⟩ := answerSteps_allOk cfg env st false msg.sdp hok
    exact ⟨answer, localDescription, by rw [heff]; exact h⟩
  rcases jsStrGt_exactly_one a b hab with ⟨hab1, hba1⟩ | ⟨hab1, hba1⟩
  · right
    rw [← hA] at hab1
    rw [← hB] at hba1
    exact ⟨accept _ envA stA offerB htB hneA hab1 hokA,
      offer_dropped_of _ envB stB offerA htA hneB hba1 hcB, hba1, hab1⟩
  · left
    rw [← hA] at hab1
    rw [← hB] at hba1
    exact ⟨accept _ envB stB offerA htA hneB hba1 hokB,
      offer_dropped_of _ envA stA offerB htB hneA hab1 hcA, hab1, hba1⟩

/-- Witness of C1: `alice` and `bob` in room `r1`, each with its own offer
pending (`have-local-offer`) when the offer of the other arrives. -/
theorem glare_exactly_one_offer_accepted_witness :
    lit "alice" ≠ lit "bob" ∧
    (Accepted { username := lit "bob", room := lit "r1" } none
        (signalWs_onmessage { username := lit "bob", room := lit "r1" }
          (okEnv .haveLocalOffer)
          { makingOffer := false, ignoreOffer := false, polite := true }
          (some { type := lit "offer", username := some (lit "alice") })) ∧
      Dropped
        (signalWs_onmessage { username := lit "alice", room := lit "r1" }
          (okEnv .haveLocalOffer)
          { makingOffer := false, ignoreOffer := false, polite := false }
          (some { type := lit "offer", username := some (lit "bob") }))) := by
  refine ⟨by decide, ?_⟩
  have h := glare_exactly_one_offer_accepted (lit "alice") (lit "bob") (lit "r1") (by decide)
    (okEnv .stable) (okEnv .stable) Negotiation.initial Negotiation.initial
    { type := lit "peer-joined" } { type := lit "peer-joined" }
    { makingOffer := false, ignoreOffer := false, polite := false }
    { makingOffer := false, ignoreOffer := false, polite := true }
    (by decide) (by decide)
    (okEnv .haveLocalOffer) (okEnv .haveLocalOffer) (okEnv_allOk _) (okEnv_allOk _)
    (Or.inr (by decide)) (Or.inr (by decide))
    { type := lit "offer", username := some (lit "alice") }
    { type := lit "offer", username := some (lit "bob") } rfl rfl rfl rfl
  rcases h with ⟨hacc, hdrop, _, _⟩ | ⟨_, _, hfalse, _⟩
  · exact ⟨hacc, hdrop⟩
  · exact absurd hfalse (by decide)

/-! ## Chunk reassembly on the data channel -/

theorem toUint8Array_of_bytes (xs : List Nat) (h : ∀ x ∈ xs, x < 256) :
    toUint8Array xs = xs := by
  induction xs with
  | nil => rfl
  | cons x xs ih =>
    have hx : x % 256 = x := Nat.mod_eq_of_lt (h x (by simp))
    have hxs : toUint8Array xs = xs := ih (fun y hy => h y (by simp [hy]))
    simp only [toUint8Array, List.map_cons] at hxs ⊢
    rw [hx, hxs]

theorem FileBuffer.get_of_own (fb : FileBuffer) (key : JSString) (xs : List Nat)
    (h : fb key = some xs) : fb.get key = .array xs := by
  simp [FileBuffer.get, h]

theorem FileBuffer.own_of_get_undefined (fb : FileBuffer) (key : JSString)
    (h : fb.get key = .undefined) : fb key = none := by
  unfold FileBuffer.get at h
  cases hk : fb key with
  | none => rfl
  | some xs => simp [hk] at h

/-- A chunk without `end` for a key that holds the array `xs` appends to it. -/
theorem dc_onmessage_append (maxArgs : Nat) (username : JSString) (fb : FileBuffer)
    (f : JSString) (xs : List Nat) (e : PeerEnvelope) (hown : fb f = some xs)
    (he : IsChunkOf f e) (hfit : ChunkFits maxArgs e) (hend : e.endFlag = false) :
    (dc_onmessage maxArgs username fb (some e)).delivered = [] ∧
      (dc_onmessage maxArgs username fb (some e)).fileBuffer f =
        some (xs ++ e.chunk.getD []) := by
  obtain ⟨ht, hf, hc⟩ := he
  obtain ⟨c, hc⟩ := Option.isSome_iff_exists.mp hc
  have hget : fb.get f = .array xs := fb.get_of_own f xs hown
  have hlen : ¬ c.length > maxArgs := by
    simp only [ChunkFits, hc, Option.getD_some] at hfit
    omega
  simp [dc_onmessage, ht, hf, stringOfProp, hget, hc, hend, FileBuffer.set, hlen]

/-- A chunk with `end` for a key that holds the array `xs` completes the file. -/
theorem dc_onmessage_complete (maxArgs : Nat) (username : JSString) (fb : FileBuffer)
    (f : JSString) (xs : List Nat) (e : PeerEnvelope) (hown : fb f = some xs)
    (he : IsChunkOf f e) (hfit : ChunkFits maxArgs e) (hend : e.endFlag = true) :
    (dc_onmessage maxArgs username fb (some e)).delivered =
        [{ type := lit "file", sender := e.sender, filename := some f,
           blob := some { bytes := toUint8Array (xs ++ e.chunk.getD []), type := [] } }] ∧
      (dc_onmessage maxArgs username fb (some e)).fileBuffer f = none := by
  obtain ⟨ht, hf, hc⟩ := he
  obtain ⟨c, hc⟩ := Option.isSome_iff_exists.mp hc
  have hget : fb.get f = .array xs := fb.get_of_own f xs hown
  have hlen : ¬ c.length > maxArgs := by
    simp only [ChunkFits, hc, Option.getD_some] at hfit
    omega
  simp [dc_onmessage, ht, hf, stringOfProp, hget, hc, hend, FileBuffer.delete, hlen]

/-- The first chunk for a key whose lookup is `undefined`. -/
theorem dc_onmessage_first (maxArgs : Nat) (username : JSString) (fb : FileBuffer)
    (f : JSString) (e : PeerEnvelope) (hget : fb.get f = .undefined)
    (he : IsChunkOf f e) (hfit : ChunkFits maxArgs e) :
    (e.endFlag = false →
      (dc_onmessage maxArgs username fb (some e)).delivered = [] ∧
        (dc_onmessage maxArgs username fb (some e)).fileBuffer f =
          some (e.chunk.getD [])) ∧
    (e.endFlag = true →
      (dc_onmessage maxArgs username fb (some e)).delivered =
          [{ type := lit "file", sender := e.sender, filename := some f,
             blob := some { bytes := toUint8Array (e.chunk.getD []), type := [] } }] ∧
        (dc_onmessage maxArgs username fb (some e)).fileBuffer f = none) := by
  obtain ⟨ht, hf, hc⟩ := he
  obtain ⟨c, hc⟩ := Option.isSome_iff_exists.mp hc
  have hlen : ¬ c.length > maxArgs := by
    simp only [ChunkFits, hc, Option.getD_some] at hfit
    omega
  constructor
  · intro hend
    simp [dc_onmessage, ht, hf, stringOfProp, hget, hc, hend, FileBuffer.set, hlen]
  · intro hend
    simp [dc_onmessage, ht, hf, stringOfProp, hget, hc, hend, FileBuffer.delete, hlen]

/-- A chunk with more elements than the engine accepts arguments is not
handed upward: the call of `push` throws. -/
theorem dc_onmessage_over_limit (maxArgs : Nat) (username : JSString) (fb : FileBuffer)
    (e : PeerEnvelope) (c : List Nat) (ht : e.type = lit "file_chunk")
    (hc : e.chunk = some c) (hlen : c.length > maxArgs) :
    (dc_onmessage maxArgs username fb (some e)).delivered = [] := by
  simp only [dc_onmessage, ht, if_true, hc]
  cases fb.get (stringOfProp e.filename) with
  | undefined => simp [hlen]
  | inherited => rfl
  | array xs => simp [hlen]

/-- Reassembly from a key that already holds the array `xs`. -/
theorem dc_run_from_array (maxArgs : Nat) (username : JSString) (f : JSString)
    (init : List PeerEnvelope) (last : PeerEnvelope) :
    ∀ (fb : FileBuffer) (xs : List Nat), fb f = some xs →
      (∀ e ∈ init, IsChunkOf f e ∧ ChunkFits maxArgs e ∧ e.endFlag = false) →
      IsChunkOf f last → ChunkFits maxArgs last → last.endFlag = true →
      (dc_run maxArgs username fb (init.map some)).delivered = [] ∧
      (dc_run maxArgs username fb ((init ++ [last]).map some)).delivered =
        [{ type := lit "file", sender := last.sender, filename := some f,
           blob := some { bytes := toUint8Array (xs ++ chunkBytes (init ++ [last])),
                          type := [] } }] ∧
      (dc_run maxArgs username fb ((init ++ [last]).map some)).fileBuffer f = none := by
  induction init with
  | nil =>
    intro fb xs hown _ hlast hfit hend
    obtain ⟨hd, hb⟩ :=
      dc_onmessage_complete maxArgs username fb f xs last hown hlast hfit hend
    simp [dc_run, chunkBytes, hd, hb]
  | cons e es ih =>
    intro fb xs hown hinit hlast hfit hend
    obtain ⟨he, hefit, heend⟩ := hinit e (by simp)
    obtain ⟨hd, hb⟩ := dc_onmessage_append maxArgs username fb f xs e hown he hefit heend
    obtain ⟨h1, h2, h3⟩ := ih (dc_onmessage maxArgs username fb (some e)).fileBuffer
      (xs ++ e.chunk.getD []) hb (fun x hx => hinit x (by simp [hx])) hlast hfit hend
    refine ⟨?_, ?_, ?_⟩
    · simp [dc_run, hd, h1]
    · have hcb : chunkBytes (e :: es ++ [last]) =
          e.chunk.getD [] ++ chunkBytes (es ++ [last]) := by
        simp [chunkBytes]
      rw [hcb, ← List.append_assoc]
      simp only [List.cons_append, List.map_cons, dc_run, hd, List.nil_append]
      exact h2
    · simpa [dc_run] using h3

/-- Reassembly of a sequence of chunks for a key whose lookup is `undefined`:
nothing is handed upward before the last chunk, one `file` event with all the
bytes after it, and the entry is gone. -/
theorem dc_run_fresh (maxArgs : Nat) (username f : JSString) (fb : FileBuffer)
    (init : List PeerEnvelope) (last : PeerEnvelope)
    (hfree : fb.get f = .undefined)
    (hinit : ∀ e ∈ init, IsChunkOf f e ∧ ChunkFits maxArgs e ∧ e.endFlag = false)
    (hlast : IsChunkOf f last) (hfit : ChunkFits maxArgs last)
    (hend : last.endFlag = true) :
    (dc_run maxArgs username fb (init.map some)).delivered = [] ∧
      (dc_run maxArgs username fb ((init ++ [last]).map some)).delivered =
        [{ type := lit "file", sender := last.sender, filename := some f,
           blob := some { bytes := toUint8Array (chunkBytes (init ++ [last])),
                          type := [] } }] ∧
      (dc_run maxArgs username fb ((init ++ [last]).map some)).fileBuffer f = none := by
  cases init with
  | nil =>
    obtain ⟨hd, hb⟩ := (dc_onmessage_first maxArgs username fb f last hfree hlast hfit).2 hend
    simp [dc_run, chunkBytes, hd, hb]
  | cons e es =>
    obtain ⟨he, hefit, heend⟩ := hinit e (by simp)
    obtain ⟨hd, hb⟩ := (dc_onmessage_first maxArgs username fb f e hfree he hefit).1 heend
    obtain ⟨h1, h2, h3⟩ := dc_run_from_array maxArgs username f es last
      (dc_onmessage maxArgs username fb (some e)).fileBuffer (e.chunk.getD []) hb
      (fun x hx => hinit x (by simp [hx])) hlast hfit hend
    have hcb : chunkBytes (e :: es ++ [last]) =
        e.chunk.getD [] ++ chunkBytes (es ++ [last]) := by
      simp [chunkBytes]
    refine ⟨?_, ?_, ?_⟩
    · simp [dc_run, hd, h1]
    · rw [hcb]
      simp only [List.cons_append, List.map_cons, dc_run, hd, List.nil_append]
      exact h2
    · simpa [dc_run] using h3

/-- What does hold of chunk reassembly in `dc.onmessage`: for a filename `f`
whose lookup `fileBuffer[f]` is `undefined` (which leaves out the names every
object inherits) and an in-order sequence of `file_chunk` envelopes for `f`,
each chunk within the argument limit of the engine, of which only the last has
`end`, nothing is handed upward before the last envelope, exactly one `file`
event is handed upward in all, its bytes are the chunks concatenated in order
(as a `Uint8Array`, which leaves bytes as they are), and afterwards the buffer
has no entry for `f`. -/
theorem chunk_reassembly_of_plain_name (maxArgs : Nat) (username f : JSString)
    (fb : FileBuffer) (init : List PeerEnvelope) (last : PeerEnvelope)
    (hfree : fb.get f = .undefined)
    (hinit : ∀ e ∈ init, IsChunkOf f e ∧ ChunkFits maxArgs e ∧ e.endFlag = false)
    (hlast : IsChunkOf f last) (hfit : ChunkFits maxArgs last)
    (hend : last.endFlag = true) :
    let r := dc_run maxArgs username fb ((init ++ [last]).map some)
    (dc_run maxArgs username fb (init.map some)).delivered = [] ∧
      r.delivered =
        [{ type := lit "file", sender := last.sender, filename := some f,
           blob := some { bytes := toUint8Array (chunkBytes (init ++ [last])),
                          type := [] } }] ∧
      ((∀ x ∈ chunkBytes (init ++ [last]), x < 256) →
        toUint8Array (chunkBytes (init ++ [last])) = chunkBytes (init ++ [last])) ∧
      r.fileBuffer f = none ∧ r.fileBuffer.get f = .undefined := by
  intro r
  have hkey : f ∉ objectPrototypeKeys := by
    intro hmem
    have hnone := fb.own_of_get_undefined f hfree
    simp [FileBuffer.get, hnone, hmem] at hfree
  have hundef : ∀ g : FileBuffer, g f = none → g.get f = .undefined := by
    intro g hg
    simp [FileBuffer.get, hg, hkey]
  obtain ⟨h1, h2, h3⟩ :=
    dc_run_fresh maxArgs username f fb init last hfree hinit hlast hfit hend
  exact ⟨h1, h2, toUint8Array_of_bytes _, h3, hundef _ h3⟩

/-- Claim C4, the code at the failing input. The buffer is empty, so no stream
is pending for any filename, and a single chunk marked `end` arrives for a file
named `constructor`: the lookup `fileBuffer["constructor"]` yields the function
every object inherits, the entry is not created, `push` is not a function, the
`catch` clause runs and no `file` event is emitted.  The same chunk for the
file `a.png` is emitted as a `file` event.  A single chunk of 200000 bytes for
`a.png`, with an engine that accepts up to 100000 arguments, makes
`push(...data.chunk)` throw, and again no `file` event is emitted. -/
theorem inherited_filename_emits_nothing :
    (FileBuffer.empty (lit "constructor") = none ∧
      (dc_onmessage exampleMaxArgs (lit "bob") FileBuffer.empty
        (some { type := lit "file_chunk", sender := some (lit "alice"),
                filename := some (lit "constructor"), chunk := some [1, 2, 3],
                endFlag := true })).delivered = [] ∧
      (dc_onmessage exampleMaxArgs (lit "bob") FileBuffer.empty
        (some { type := lit "file_chunk", sender := some (lit "alice"),
                filename := some (lit "constructor"), chunk := some [1, 2, 3],
                endFlag := true })).caught = true) ∧
    (dc_onmessage exampleMaxArgs (lit "bob") FileBuffer.empty
        (some { type := lit "file_chunk", sender := some (lit "alice"),
                filename := some (lit "a.png"), chunk := some [1, 2, 3],
                endFlag := true })).delivered =
      [{ type := lit "file", sender := some (lit "alice"), filename := some (lit "a.png"),
         blob := some { bytes := [1, 2, 3], type := [] } }] ∧
    (dc_onmessage exampleMaxArgs (lit "bob") FileBuffer.empty (some longChunk)).delivered
      = [] := by
  refine ⟨⟨rfl, ?_, ?_⟩, ?_, ?_⟩
  · decide
  · decide
  · decide
  · refine dc_onmessage_over_limit exampleMaxArgs (lit "bob") FileBuffer.empty longChunk
      (List.replicate 200000 0) rfl rfl ?_
    rw [List.length_replicate]
    decide

/-! ## Splitting a file into chunks -/

/-- The loop of `localDC.sendFile` on a channel whose sends all succeed, with a
bound that exceeds the bytes left: it ends without throwing, and the envelopes
it emits carry the bytes from offset `i` on, `chunkSize` at a time. -/
theorem sendLoop_spec (username : JSString) (file : File) (sendOk : Nat → Bool)
    (hok : ∀ k, sendOk k = true) :
    ∀ (fuel k i : Nat), file.bytes.length - i < fuel →
      ∃ r, sendLoop username file sendOk fuel k i = some r ∧ r.threw = false ∧
        r.attempts = r.emitted.length ∧
        (r.emitted = [] ↔ file.bytes.length ≤ i) ∧
        chunkBytes r.emitted = file.bytes.drop i ∧
        (∀ e ∈ r.emitted, e.type = lit "file_chunk" ∧ e.sender = some username ∧
          e.filename = some file.name) ∧
        (∀ j e, r.emitted[j]? = some e →
          e.chunk = some ((file.bytes.drop (i + j * chunkSize)).take chunkSize) ∧
          (e.endFlag = true ↔ j + 1 = r.emitted.length)) := by
  intro fuel
  induction fuel with
  | zero =>
    intro k i h
    exact absurd h (Nat.not_lt_zero _)
  | succ n ih =>
    intro k i h
    by_cases hi : i < file.bytes.length
    · have hcs : chunkSize = 16000 := rfl
      obtain ⟨rest, hrest, hthrew, hatt, hnil, hbytes, hfields, hidx⟩ :=
        ih (k + 1) (i + chunkSize) (by omega)
      have hloop : sendLoop username file sendOk (n + 1) k i =
          some { emitted :=
                   { type := lit "file_chunk", sender := some username,
                     filename := some file.name,
                     chunk := some ((file.bytes.drop i).take chunkSize),
                     endFlag := decide (i + chunkSize ≥ file.bytes.length) } ::
                     rest.emitted,
                 attempts := rest.attempts + 1,
                 threw := rest.threw } := by
        simp only [sendLoop, hi, if_true, hok, hrest, Option.map_some']
      refine ⟨_, hloop, hthrew, ?_, ?_, ?_, ?_, ?_⟩
      · simp [hatt]
      · constructor
        · intro hnil2
          simp at hnil2
        · intro hle
          omega
      · simp only [chunkBytes, List.flatMap_cons, Option.getD_some]
        have hrestBytes : rest.emitted.flatMap (fun e => e.chunk.getD []) =
            List.drop chunkSize (List.drop i file.bytes) := by
          have := hbytes
          simp only [chunkBytes] at this
          rw [this, List.drop_drop, Nat.add_comm]
        rw [hrestBytes, List.take_append_drop]
      · intro e he
        rcases List.mem_cons.mp he with rfl | he
        · exact ⟨rfl, rfl, rfl⟩
        · exact hfields e he
      · intro j e hj
        cases j with
        | zero =>
          simp only [List.getElem?_cons_zero, Option.some.injEq] at hj
          subst hj
          refine ⟨by simp, ?_⟩
          simp only [decide_eq_true_eq, List.length_cons]
          constructor
          · intro hge
            have : rest.emitted = [] := hnil.mpr (by omega)
            simp [this]
          · intro hlen
            have : rest.emitted = [] := by
              cases hre : rest.emitted with
              | nil => rfl
              | cons x xs => rw [hre] at hlen; simp at hlen
            have := hnil.mp this
            omega
        | succ j =>
          simp only [List.getElem?_cons_succ] at hj
          obtain ⟨hchunk, hend⟩ := hidx j e hj
          refine ⟨?_, ?_⟩
          · rw [hchunk]
            have hoff : i + chunkSize + j * chunkSize = i + (j + 1) * chunkSize := by
              rw [Nat.succ_mul]
              omega
            rw [hoff]
          · rw [hend]
            simp
    · have hloop : sendLoop username file sendOk (n + 1) k i =
          some { emitted := [], attempts := 0, threw := false } := by
        simp only [sendLoop, hi, if_false]
      refine ⟨_, hloop, rfl, rfl, ?_, ?_, ?_, ?_⟩
      · simp
        omega
      · simp [chunkBytes, List.drop_eq_nil_of_le (Nat.le_of_not_lt hi)]
      · intro e he
        simp at he
      · intro j e hj
        simp at hj

/-- Claim C5. The method `localDC.sendFile`, on a channel that is open and stays
so (every `send` succeeds), returns without throwing after emitting
`file_chunk` envelopes such that: every chunk has at most `chunkSize` = 16000
bytes; the chunk of the envelope number `j` is the slice of the file at byte
offset `j * 16000`, so the offsets strictly ascend; the chunks concatenated in
emission order are the bytes of the file; and an envelope is marked `end`
exactly when it is the last one emitted. -/
theorem sendFile_chunks (username : JSString) (ch : ChannelView) (file : File)
    (hopen : ch.readyState = DcState.open) (hok : ∀ k, ch.sendOk k = true) :
    ∃ r, localDC_sendFile username ch file = some r ∧ r.threw = false ∧
      (∀ e ∈ r.emitted, e.type = lit "file_chunk" ∧ e.sender = some username ∧
        e.filename = some file.name ∧ ∃ c, e.chunk = some c ∧ c.length ≤ 16000) ∧
      (∀ j e, r.emitted[j]? = some e →
        e.chunk = some ((file.bytes.drop (j * 16000)).take 16000) ∧
        (e.endFlag = true ↔ j + 1 = r.emitted.length)) ∧
      chunkBytes r.emitted = file.bytes := by
  obtain ⟨r, hr, hthrew, _, _, hbytes, hfields, hidx⟩ :=
    sendLoop_spec username file ch.sendOk hok (file.bytes.length + 1) 0 0 (by omega)
  have hidx0 : ∀ j e, r.emitted[j]? = some e →
      e.chunk = some ((file.bytes.drop (j * 16000)).take 16000) ∧
      (e.endFlag = true ↔ j + 1 = r.emitted.length) := by
    intro j e hj
    have := hidx j e hj
    simpa [chunkSize] using this
  refine ⟨r, by simp [localDC_sendFile, hopen, hr], hthrew, ?_, hidx0, by simpa using hbytes⟩
  intro e he
  obtain ⟨ht, hs, hf⟩ := hfields e he
  obtain ⟨j, hj⟩ := List.getElem?_of_mem he
  obtain ⟨hchunk, _⟩ := hidx0 j e hj
  exact ⟨ht, hs, hf, _, hchunk, List.length_take_le _ _⟩

/-- Witness of C5: a file of three bytes goes out as one envelope marked `end`. -/
theorem sendFile_chunks_witness :
    (DcState.open = DcState.open ∧ ∀ k : Nat, (fun _ : Nat => true) k = true) ∧
    ∃ r, localDC_sendFile (lit "alice")
          { readyState := DcState.open, sendOk := fun _ => true }
          { name := lit "a.txt", type := lit "text/plain", bytes := [104, 105, 10] } = some r ∧
        chunkBytes r.emitted = [104, 105, 10] := by
  refine ⟨⟨rfl, fun _ => rfl⟩, ?_⟩
  obtain ⟨r, hr, _, _, _, hbytes⟩ := sendFile_chunks (lit "alice")
    { readyState := DcState.open, sendOk := fun _ => true }
    { name := lit "a.txt", type := lit "text/plain", bytes := [104, 105, 10] } rfl
    (fun _ => rfl)
  exact ⟨r, hr, hbytes⟩

/-- The number of envelopes the loop of `localDC.sendFile` emits from offset
`i` on when every send succeeds. -/
theorem sendLoop_length (username : JSString) (file : File) (sendOk : Nat → Bool)
    (hok : ∀ k, sendOk k = true) :
    ∀ (fuel k i : Nat), file.bytes.length - i < fuel →
      ∃ r, sendLoop username file sendOk fuel k i = some r ∧
        r.emitted.length = (file.bytes.length - i + 15999) / 16000 := by
  intro fuel
  induction fuel with
  | zero =>
    intro k i h
    exact absurd h (Nat.not_lt_zero _)
  | succ n ih =>
    intro k i h
    have hcs : chunkSize = 16000 := rfl
    by_cases hi : i < file.bytes.length
    · obtain ⟨rest, hrest, hlen⟩ := ih (k + 1) (i + chunkSize) (by omega)
      have hloop : sendLoop username file sendOk (n + 1) k i =
          some { emitted :=
                   { type := lit "file_chunk", sender := some username,
                     filename := some file.name,
                     chunk := some ((file.bytes.drop i).take chunkSize),
                     endFlag := decide (i + chunkSize ≥ file.bytes.length) } ::
                     rest.emitted,
                 attempts := rest.attempts + 1,
                 threw := rest.threw } := by
        simp only [sendLoop, hi, if_true, hok, hrest, Option.map_some']
      refine ⟨_, hloop, ?_⟩
      simp only [List.length_cons, hlen]
      rw [hcs]
      omega
    · have hloop : sendLoop username file sendOk (n + 1) k i =
          some { emitted := [], attempts := 0, threw := false } := by
        simp only [sendLoop, hi, if_false]
      refine ⟨_, hloop, ?_⟩
      simp only [List.length_nil]
      omega

/-! ## The size ceiling of the file handler -/

/-- Claim C6. Sending a file of more than 60 MB (`60 * 1024 * 1024` bytes): the
file handler of the application rejects it before anything is read or sent,
whatever the connection (none, the relayed socket or the data channel, in any
state); `sendFile` is not called, no `file_chunk` envelope is emitted on either
transport, and the too-large error is raised as a toast. -/
theorem oversize_file_rejected (maxArgs : Nat) (username : JSString) (conn : Option Conn)
    (file : File) (hsize : file.size > 60 * 1024 * 1024) :
    let r := App_onFile maxArgs username conn file
    r.sendFileCalled = false ∧ r.relayEmitted = [] ∧ r.peerEmitted = [] ∧
      r.localMessage = none ∧
      r.toasts = [{ message := lit "❌ File too large (limit 60 MB)", type := lit "error" }] := by
  intro r
  have h : file.size > maxFileSize := hsize
  simp [r, App_onFile, h]

theorem bigFile_size : bigFile.size > 60 * 1024 * 1024 := by
  unfold File.size bigFile
  rw [List.length_replicate]
  exact Nat.lt_succ_self _

/-- Witness of C6: a file of one byte more than 60 MB on an open relayed
socket. -/
theorem oversize_file_rejected_witness :
    bigFile.size > 60 * 1024 * 1024 ∧
    (App_onFile exampleMaxArgs (lit "alice") (some (Conn.relayed 1)) bigFile).relayEmitted
      = [] :=
  ⟨bigFile_size,
   (oversize_file_rejected exampleMaxArgs (lit "alice") (some (Conn.relayed 1)) bigFile
     bigFile_size).2.1⟩

/-- The method `localDC.sendFile` itself has no ceiling: called on an open
channel with the file of one byte more than 60 MB it emits envelopes. -/
theorem localDC_sendFile_no_ceiling (username : JSString) :
    ∃ r, localDC_sendFile username { readyState := DcState.open, sendOk := fun _ => true }
        bigFile = some r ∧ r.emitted ≠ [] := by
  obtain ⟨r, hr, _, _, hnil, _⟩ :=
    sendLoop_spec username bigFile (fun _ => true) (fun _ => rfl)
      (bigFile.bytes.length + 1) 0 0 (by omega)
  refine ⟨r, by simp [localDC_sendFile, hr], ?_⟩
  intro hempty
  have hle := hnil.mp hempty
  have hsize := bigFile_size
  unfold File.size at hsize
  omega

/-! ## Self-echo suppression -/

theorem lit_file_ne_users : lit "file" ≠ lit "users" := by decide

/-- The application discards an event that carries the local username as
`sender`, unless it is a `users` event. -/
theorem App_onMessage_self {χ : Type} (username : JSString) (s : AppState χ)
    (m : Envelope χ) (ht : m.type ≠ lit "users") (hs : m.sender = some username) :
    App_onMessage username s m = s := by
  simp [App_onMessage, ht, hs]

/-- Counterexample to C7 as stated: the relayed handler hands a `typing`
envelope sent by the local user to `onMessage`, and the data-channel handler
hands upward the `file` event of a chunk sent by the local user. -/
theorem self_echo_reaches_onMessage :
    (ws_onmessage (lit "alice") []
        (some { type := lit "typing", sender := some (lit "alice") })).delivered =
      [{ type := lit "typing", sender := some (lit "alice") }] ∧
    (dc_onmessage exampleMaxArgs (lit "alice") FileBuffer.empty
        (some { type := lit "file_chunk", sender := some (lit "alice"),
                filename := some (lit "a.png"), chunk := some [1],
                endFlag := true })).delivered =
      [{ type := lit "file", sender := some (lit "alice"), filename := some (lit "a.png"),
         blob := some { bytes := [1], type := [] } }] := by
  constructor <;> decide

/-- Claim C7, amended. Self-echo suppression as the code does it.  The relayed
handler hands no `chat` envelope whose sender is the local username to
`onMessage`; the data-channel handler hands no envelope other than a
`file_chunk` whose sender is the local username to `onMessage`; and whatever
either handler does hand upward for an envelope, other than `users`, whose
sender is the local username, the `onMessage` handler of the application
discards, leaving its state as it was. -/
theorem self_echo_suppression (maxArgs : Nat) (username : JSString) :
    (∀ (activeUsers : List JSString) (data : RelayEnvelope),
        data.type = lit "chat" → data.sender = some username →
        (ws_onmessage username activeUsers (some data)).delivered = []) ∧
    (∀ (fb : FileBuffer) (data : PeerEnvelope),
        data.type ≠ lit "file_chunk" → data.sender = some username →
        (dc_onmessage maxArgs username fb (some data)).delivered = []) ∧
    (∀ (activeUsers : List JSString) (data : RelayEnvelope) (s : AppState JSString),
        data.type ≠ lit "users" → data.sender = some username →
        App_deliver username s (ws_onmessage username activeUsers (some data)).delivered = s) ∧
    (∀ (fb : FileBuffer) (data : PeerEnvelope) (s : AppState (List Nat)),
        data.type ≠ lit "users" → data.sender = some username →
        App_deliver username s (dc_onmessage maxArgs username fb (some data)).delivered = s) := by
  refine ⟨?_, ?_, ?_, ?_⟩
  · intro activeUsers data ht hs
    have hne : lit "chat" ≠ lit "users" := by decide
    simp [ws_onmessage, ht, hs, hne]
  · intro fb data ht hs
    simp [dc_onmessage, ht, hs]
  · intro activeUsers data s ht hs
    simp only [ws_onmessage, if_neg ht]
    by_cases hchat : data.type = lit "chat"
    · rw [if_pos ⟨hchat, hs⟩]
      rfl
    · rw [if_neg (fun h => hchat h.1)]
      by_cases hfile : data.type = lit "file_chunk"
      · rw [if_pos hfile]
        cases atob (stringOfProp data.chunk) with
        | none => rfl
        | some bytes =>
          simp only [App_deliver, List.foldl_cons, List.foldl_nil]
          exact App_onMessage_self username s _ lit_file_ne_users hs
      · rw [if_neg hfile]
        simp only [App_deliver, List.foldl_cons, List.foldl_nil]
        exact App_onMessage_self username s _ ht hs
  · intro fb data s ht hs
    by_cases hfile : data.type = lit "file_chunk"
    · have key : ∀ m ∈ (dc_onmessage maxArgs username fb (some data)).delivered,
          m.type = lit "file" ∧ m.sender = some username := by
        intro m hm
        simp only [dc_onmessage, hfile, if_true] at hm
        split at hm
        · simp at hm
        · split at hm
          · simp at hm
          · split at hm
            · simp at hm
            · split at hm
              · simp at hm; subst hm; exact ⟨rfl, hs⟩
              · simp at hm
        · split at hm
          · simp at hm
          · split at hm
            · simp at hm
            · split at hm
              · simp at hm; subst hm; exact ⟨rfl, hs⟩
              · simp at hm
      generalize (dc_onmessage maxArgs username fb (some data)).delivered = out at key
      induction out with
      | nil => rfl
      | cons m ms ih =>
        obtain ⟨hmt, hms⟩ := key m (by simp)
        have hstep : App_onMessage username s m = s :=
          App_onMessage_self username s m (by rw [hmt]; exact lit_file_ne_users) hms
        simp only [App_deliver, List.foldl_cons, hstep]
        exact ih (fun x hx => key x (by simp [hx]))
    · simp [dc_onmessage, hfile, hs, App_deliver]

/-- Witness of C7 (amended): a `chat` envelope of `alice` echoed to `alice` on
the relayed socket. -/
theorem self_echo_suppression_witness :
    (lit "chat" = lit "chat" ∧ some (lit "alice") = some (lit "alice")) ∧
    (ws_onmessage (lit "alice") []
      (some { type := lit "chat", sender := some (lit "alice"),
              text := some (lit "hi") })).delivered = [] :=
  ⟨⟨rfl, rfl⟩,
   (self_echo_suppression exampleMaxArgs (lit "alice")).1 []
     { type := lit "chat", sender := some (lit "alice"), text := some (lit "hi") } rfl rfl⟩

/-! ## Presence -/

theorem mem_foldl_setAdd {α : Type} [DecidableEq α] (xs : List α) :
    ∀ (acc : List α) (x : α), x ∈ xs.foldl setAdd acc ↔ x ∈ acc ∨ x ∈ xs := by
  induction xs with
  | nil => intro acc x; simp
  | cons y ys ih =>
    intro acc x
    rw [List.foldl_cons, ih]
    unfold setAdd
    by_cases hy : y ∈ acc
    · rw [if_pos hy]
      constructor
      · rintro (h | h)
        · exact Or.inl h
        · exact Or.inr (List.mem_cons_of_mem _ h)
      · rintro (h | h)
        · exact Or.inl h
        · rcases List.mem_cons.mp h with rfl | h
          · exact Or.inl hy
          · exact Or.inr h
    · rw [if_neg hy]
      simp only [List.mem_append, List.mem_singleton, List.mem_cons]
      tauto

theorem nodup_foldl_setAdd {α : Type} [DecidableEq α] (xs : List α) :
    ∀ (acc : List α), acc.Nodup → (xs.foldl setAdd acc).Nodup := by
  induction xs with
  | nil => intro acc h; exact h
  | cons y ys ih =>
    intro acc h
    rw [List.foldl_cons]
    apply ih
    unfold setAdd
    by_cases hy : y ∈ acc
    · rw [if_pos hy]; exact h
    · rw [if_neg hy]
      exact List.Nodup.append h (List.nodup_singleton y)
        (by simpa [List.disjoint_singleton] using hy)

theorem mem_newSet {α : Type} [DecidableEq α] (xs : List α) (x : α) :
    x ∈ newSet xs ↔ x ∈ xs := by
  simp [newSet, mem_foldl_setAdd]

theorem nodup_newSet {α : Type} [DecidableEq α] (xs : List α) : (newSet xs).Nodup :=
  nodup_foldl_setAdd xs [] List.nodup_nil

theorem mem_setDelete {α : Type} [DecidableEq α] (xs : List α) (u x : α) :
    x ∈ setDelete xs u ↔ x ∈ xs ∧ x ≠ u := by
  simp [setDelete]

theorem nodup_setDelete {α : Type} [DecidableEq α] (xs : List α) (u : α)
    (h : xs.Nodup) : (setDelete xs u).Nodup :=
  List.Nodup.filter _ h

theorem lit_leave_ne_users : lit "leave" ≠ lit "users" := by decide

theorem lit_leave_ne_join : lit "leave" ≠ lit "join" := by decide

theorem lit_leave_ne_chat : lit "leave" ≠ lit "chat" := by decide

theorem lit_leave_ne_file_chunk : lit "leave" ≠ lit "file_chunk" := by decide

theorem lit_peer_left_ne_users : lit "peer-left" ≠ lit "users" := by decide

/-- The relayed transport and the application after a `users` envelope. -/
theorem relay_receive_users (username : JSString) (c : RelayClient) (e : RelayEnvelope)
    (L : List JSString) :
    (relay_receive username c (some { e with type := lit "users", list := some L })).app.users
      = (newSet L).map some := by
  simp [relay_receive, ws_onmessage, App_deliver, App_onMessage]

/-- The relayed transport and the application after a `leave` envelope. -/
theorem relay_receive_leave (username : JSString) (c : RelayClient) (e : RelayEnvelope)
    (a : JSString) :
    (relay_receive username c
        (some { e with type := lit "leave", username := some a, sender := none })).app.users
      = setDelete (newSet c.app.users) (some a) := by
  simp [relay_receive, ws_onmessage, App_deliver, lit_leave_ne_users, lit_leave_ne_chat,
    lit_leave_ne_file_chunk, App_onMessage, lit_leave_ne_join]

/-- The peer transport and the application after a `users` message on the
signaling socket. -/
theorem peer_signal_users (cfg : PeerConfig) (env : PcEnv) (c : PeerClient) (m : SignalMsg)
    (L : List JSString) :
    (peer_signal cfg env c (some { m with type := lit "users", list := some L })).app.users
      = L.map some := by
  simp [peer_signal, signalWs_onmessage, upwardOf, App_deliver, App_onMessage]

/-- The peer transport and the application after a `peer-left` message on the
signaling socket. -/
theorem peer_signal_left (cfg : PeerConfig) (env : PcEnv) (c : PeerClient) (m : SignalMsg)
    (a : JSString) :
    (peer_signal cfg env c
        (some { m with type := lit "peer-left", username := some a })).app.users
      = setDelete (newSet c.app.users) (some a) := by
  simp [peer_signal, signalWs_onmessage, lit_peer_left_ne_users, upwardOf, App_deliver,
    App_onMessage, lit_leave_ne_users, lit_leave_ne_join]

theorem mem_presence_after_leave (L : List JSString) (a : JSString) (users : List (Option JSString))
    (hmem : ∀ x, x ∈ users ↔ ∃ u, x = some u ∧ u ∈ L) (x : Option JSString) :
    x ∈ setDelete (newSet users) (some a) ↔ ∃ u, x = some u ∧ u ∈ L ∧ u ≠ a := by
  rw [mem_setDelete, mem_newSet, hmem]
  constructor
  · rintro ⟨⟨u, rfl, hu⟩, hne⟩
    exact ⟨u, rfl, hu, fun e => hne (by rw [e])⟩
  · rintro ⟨u, rfl, hu, hne⟩
    exact ⟨⟨u, rfl, hu⟩, fun e => hne (Option.some.inj e)⟩

/-- Claim C8. Presence update: a `users` envelope with list `L` followed by a
`leave` for `a` leaves the stored presence collection with exactly the members
of `L` other than `a`, each once; for `L = [a, b]` with `a ≠ b` it is `[b]`.
This holds on the relayed transport, and on the peer transport with the
`users` and `peer-left` messages of the signaling socket. -/
theorem users_then_leave (username : JSString) (L : List JSString) (a : JSString) :
    (∀ (c : RelayClient) (e1 e2 : RelayEnvelope),
      let after := relay_receive username
        (relay_receive username c (some { e1 with type := lit "users", list := some L }))
        (some { e2 with type := lit "leave", username := some a, sender := none })
      (∀ x, x ∈ after.app.users ↔ ∃ u, x = some u ∧ u ∈ L ∧ u ≠ a) ∧
        after.app.users.Nodup ∧
        (∀ b, a ≠ b → L = [a, b] → after.app.users = [some b])) ∧
    (∀ (room : JSString) (env1 env2 : PcEnv) (c : PeerClient) (m1 m2 : SignalMsg),
      let cfg : PeerConfig := { username := username, room := room }
      let after := peer_signal cfg env2
        (peer_signal cfg env1 c (some { m1 with type := lit "users", list := some L }))
        (some { m2 with type := lit "peer-left", username := some a })
      (∀ x, x ∈ after.app.users ↔ ∃ u, x = some u ∧ u ∈ L ∧ u ≠ a) ∧
        after.app.users.Nodup ∧
        (∀ b, a ≠ b → L = [a, b] → after.app.users = [some b])) := by
  constructor
  · intro c e1 e2 after
    have hafter : after.app.users = setDelete (newSet ((newSet L).map some)) (some a) := by
      simp only [after]
      rw [relay_receive_leave, relay_receive_users]
    refine ⟨?_, ?_, ?_⟩
    · intro x
      rw [hafter]
      apply mem_presence_after_leave
      intro y
      simp only [List.mem_map, mem_newSet]
      constructor
      · rintro ⟨u, hu, rfl⟩; exact ⟨u, rfl, hu⟩
      · rintro ⟨u, rfl, hu⟩; exact ⟨u, hu, rfl⟩
    · rw [hafter]
      exact nodup_setDelete _ _ (nodup_newSet _)
    · intro b hab hL
      rw [hafter, hL]
      have hba : ¬ b = a := fun e => hab e.symm
      simp [newSet, setAdd, setDelete, hab, hba]
  · intro room env1 env2 c m1 m2 cfg after
    have hafter : after.app.users = setDelete (newSet (L.map some)) (some a) := by
      simp only [after]
      rw [peer_signal_left, peer_signal_users]
    refine ⟨?_, ?_, ?_⟩
    · intro x
      rw [hafter]
      apply mem_presence_after_leave
      intro y
      simp only [List.mem_map]
      constructor
      · rintro ⟨u, hu, rfl⟩; exact ⟨u, rfl, hu⟩
      · rintro ⟨u, rfl, hu⟩; exact ⟨u, hu, rfl⟩
    · rw [hafter]
      exact nodup_setDelete _ _ (nodup_newSet _)
    · intro b hab hL
      rw [hafter, hL]
      have hba : ¬ b = a := fun e => hab e.symm
      simp [newSet, setAdd, setDelete, hab, hba]

/-- Witness of C8: the list `[alice, bob]`, then `alice` leaves. -/
theorem users_then_leave_witness :
    lit "alice" ≠ lit "bob" ∧
    (relay_receive (lit "carol")
      (relay_receive (lit "carol")
        { activeUsers := [], app := { users := [], messages := [], isTyping := false } }
        (some { type := lit "users", list := some [lit "alice", lit "bob"] }))
      (some { type := lit "leave", username := some (lit "alice") })).app.users
      = [some (lit "bob")] :=
  ⟨by decide,
   ((users_then_leave (lit "carol") [lit "alice", lit "bob"] (lit "alice")).1
      { activeUsers := [], app := { users := [], messages := [], isTyping := false } }
      { type := lit "users" } { type := lit "leave" }).2.2 (lit "bob") (by decide) rfl⟩

/-- A `users` envelope replaces the stored presence collection, whatever was
processed before: on the relayed transport by the members of the list, each
once; on the peer transport by the list as it came. -/
theorem users_envelope_replaces (username : JSString) (L : List JSString) :
    (∀ (c : RelayClient) (e : RelayEnvelope),
      let after := relay_receive username c (some { e with type := lit "users", list := some L })
      (∀ x, x ∈ after.app.users ↔ ∃ u, x = some u ∧ u ∈ L) ∧ after.app.users.Nodup) ∧
    (∀ (room : JSString) (env : PcEnv) (c : PeerClient) (m : SignalMsg),
      (peer_signal { username := username, room := room } env c
        (some { m with type := lit "users", list := some L })).app.users = L.map some) := by
  constructor
  · intro c e after
    have hafter : after.app.users = (newSet L).map some := relay_receive_users username c e L
    rw [hafter]
    constructor
    · intro x
      simp only [List.mem_map, mem_newSet]
      constructor
      · rintro ⟨u, hu, rfl⟩; exact ⟨u, rfl, hu⟩
      · rintro ⟨u, rfl, hu⟩; exact ⟨u, hu, rfl⟩
    · exact List.Nodup.map (fun _ _ h => Option.some.inj h) (nodup_newSet L)
  · intro room env c m
    exact peer_signal_users _ env c m L

/-- Claim C9, the code at the failing input. A `users` message whose list names
`alice` twice: the peer transport hands the list upward as it came and the
application stores `alice` twice, while the relayed transport, which passes the
list through a `Set`, stores her once. -/
theorem peer_users_keeps_duplicates :
    (peer_signal { username := lit "carol", room := lit "r1" } (okEnv .stable)
        { negotiation := Negotiation.initial, fileBuffer := FileBuffer.empty,
          app := { users := [], messages := [], isTyping := false } }
        (some { type := lit "users", list := some [lit "alice", lit "alice"] })).app.users
      = [some (lit "alice"), some (lit "alice")] ∧
    (relay_receive (lit "carol")
        { activeUsers := [], app := { users := [], messages := [], isTyping := false } }
        (some { type := lit "users", list := some [lit "alice", lit "alice"] })).app.users
      = [some (lit "alice")] := by
  constructor <;> decide

/-! ## Closing twice -/

/-- Once `_safeClose` has run on the relayed socket no handler is left in
`ws.onclose`, whatever happens next. -/
theorem ws_run_oncloseSet (username : JSString) (steps : List WsStep) :
    ∀ (r : WsRun), r.conn.oncloseSet = false →
      (ws_run username r steps).conn.oncloseSet = false ∧
        (ws_run username r steps).onCloseCount = r.onCloseCount := by
  induction steps with
  | nil => intro r h; exact ⟨h, rfl⟩
  | cons st rest ih =>
    intro r h
    have hstep : (ws_step username r st).conn.oncloseSet = false ∧
        (ws_step username r st).onCloseCount = r.onCloseCount := by
      cases st with
      | safeClose env => exact ⟨rfl, rfl⟩
      | closeEvent =>
        unfold ws_step ws_closeEvent
        by_cases h3 : r.conn.readyState = 3
        · rw [if_pos h3]; exact ⟨h, rfl⟩
        · rw [if_neg h3]; simp [h]
    obtain ⟨h1, h2⟩ := ih (ws_step username r st) hstep.1
    simp only [ws_run, List.foldl_cons] at h1 h2 ⊢
    exact ⟨h1, by rw [h2, hstep.2]⟩

/-- Counterexample to C10 as stated: on an open relayed socket, two calls of
`_safeClose` and the `close` event of the socket give no `onClose`
notification at all, in whichever order the event falls. -/
theorem relayed_close_twice_no_onClose :
    (ws_run (lit "alice")
        { conn := { readyState := 1, oncloseSet := true }, onCloseCount := 0, calls := [] }
        [.safeClose { sendThrows := false, closeThrows := false },
         .safeClose { sendThrows := false, closeThrows := false },
         .closeEvent]).onCloseCount = 0 ∧
    (ws_run (lit "alice")
        { conn := { readyState := 1, oncloseSet := true }, onCloseCount := 0, calls := [] }
        [.safeClose { sendThrows := false, closeThrows := false },
         .closeEvent,
         .safeClose { sendThrows := false, closeThrows := false }]).onCloseCount = 0 := by
  constructor <;> decide

/-- Claim C10, amended. Closing twice.  On the relayed transport `_safeClose`
detaches the close handler before it closes the socket, so after the first call
no `onClose` notification is made any more, whatever follows (further calls of
`_safeClose`, the `close` event): two calls give none, not one.  On the peer
transport, and on the relayed one, a second call right after a first whose
browser calls did not throw leaves the connection exactly as the first call
left it, so it gives rise to no notification of its own. -/
theorem close_twice (username : JSString) :
    (∀ (env : WsCloseEnv) (r : WsRun) (steps : List WsStep),
      (ws_run username (ws_safeClose username env r) steps).onCloseCount = r.onCloseCount) ∧
    (∀ (env1 env2 : WsCloseEnv) (r : WsRun), env1.closeThrows = false →
      (ws_safeClose username env2 (ws_safeClose username env1 r)).conn =
        (ws_safeClose username env1 r).conn ∧
      (ws_safeClose username env2 (ws_safeClose username env1 r)).calls =
        (ws_safeClose username env1 r).calls ++ [.close]) ∧
    (∀ (env1 env2 : PeerCloseEnv) (s : PeerConn),
      env1.dcCloseThrows = false → env1.pcCloseThrows = false →
      env1.signalCloseThrows = false →
      localDC_safeClose env2 (localDC_safeClose env1 s) = localDC_safeClose env1 s) := by
  refine ⟨?_, ?_, ?_⟩
  · intro env r steps
    exact (ws_run_oncloseSet username steps (ws_safeClose username env r) rfl).2
  · intro env1 env2 r h1
    have hstate : ∀ n : Nat, wsCloseState n ≠ 1 ∧ wsCloseState (wsCloseState n) = wsCloseState n := by
      intro n
      unfold wsCloseState
      by_cases hn : n = 0 ∨ n = 1
      · simp [hn]
      · rw [if_neg hn, if_neg hn]
        exact ⟨fun e => hn (Or.inr e), rfl⟩
    obtain ⟨hne, hidem⟩ := hstate r.conn.readyState
    constructor
    · simp only [ws_safeClose, h1]
      cases env2.closeThrows <;> simp [hidem]
    · simp [ws_safeClose, h1, hne]
  · intro env1 env2 s h1 h2 h3
    have hfirst : localDC_safeClose env1 s =
        closeSignaling (closePeerConnection (closeCurrentChannel s)) := by
      simp [localDC_safeClose, h1, h2, h3]
    rw [hfirst]
    cases s with
    | mk localDC remoteDC pcClosed signalWs =>
      cases env2 with
      | mk t1 t2 t3 =>
        cases remoteDC <;> cases t1 <;> cases t2 <;> cases t3 <;>
          by_cases hs : signalWs = 1 <;>
          simp [localDC_safeClose, closeSignaling, closePeerConnection, closeCurrentChannel,
            dcCloseState, hs]

/-- Witness of C10 (amended): the peer transport with an open channel and an
open signaling socket, closed twice. -/
theorem close_twice_witness :
    ((false = false ∧ false = false) ∧ false = false) ∧
    localDC_safeClose { dcCloseThrows := false, pcCloseThrows := false, signalCloseThrows := false }
        (localDC_safeClose
          { dcCloseThrows := false, pcCloseThrows := false, signalCloseThrows := false }
          { localDC := .open, remoteDC := none, pcClosed := false, signalWs := 1 })
      = { localDC := .closed, remoteDC := none, pcClosed := true, signalWs := 2 } :=
  ⟨⟨⟨rfl, rfl⟩, rfl⟩,
   ((close_twice (lit "alice")).2.2
      { dcCloseThrows := false, pcCloseThrows := false, signalCloseThrows := false }
      { dcCloseThrows := false, pcCloseThrows := false, signalCloseThrows := false }
      { localDC := .open, remoteDC := none, pcClosed := false, signalWs := 1 }
      rfl rfl rfl).trans (by decide)⟩

/-! ## Closing always succeeds -/

/-- Claim C11. The method `_safeClose` never throws, on either transport and
in every state, whichever of the calls it makes throws: written out with its
`try` statements it always ends normally, in the state the method is modelled
to leave.  On the relayed transport a `leave` envelope is handed to `send`
exactly when the socket is open, and that call comes before the call of
`close`. -/
theorem safeClose_never_throws :
    (∀ (username : JSString) (env : WsCloseEnv) (r : WsRun),
      ws_safeClose_completion username env r =
        Completion.normal (ws_safeClose username env r)) ∧
    (∀ (env : PeerCloseEnv) (s : PeerConn),
      localDC_safeClose_completion env s = Completion.normal (localDC_safeClose env s)) ∧
    (∀ (username : JSString) (env : WsCloseEnv) (r : WsRun),
      (ws_safeClose username env r).calls =
        r.calls ++
          (if r.conn.readyState = 1 then
            [WsCall.send { type := lit "leave", username := some username }]
           else []) ++ [WsCall.close]) := by
  refine ⟨?_, ?_, ?_⟩
  · intro username env r
    by_cases hopen : r.conn.readyState = 1 <;> cases hs : env.sendThrows <;>
      cases hc : env.closeThrows <;>
      simp [ws_safeClose_completion, ws_leaveBlock, ws_closeBlock, tryCatch,
        Completion.andThen, ws_safeClose, hopen, hs, hc]
  · intro env s
    by_cases hopen : s.signalWs = 1 <;> cases h1 : env.dcCloseThrows <;>
      cases h2 : env.pcCloseThrows <;> cases h3 : env.signalCloseThrows <;>
      simp [localDC_safeClose_completion, dcCloseBlock, pcCloseBlock, signalCloseBlock,
        tryCatch, Completion.andThen, localDC_safeClose, closeSignaling,
        closePeerConnection, closeCurrentChannel, hopen, h1, h2, h3] <;>
      cases hr : s.remoteDC <;> simp [hopen]
  · intro username env r
    rfl

/-! ## Malformed payloads -/

/-- Claim C12. A payload that is not valid JSON (`JSON.parse` throws) is
discarded by each of the three handlers: the relayed handler and the
data-channel handler end in their `catch` clause, the signaling handler
returns; nothing is handed upward, nothing is called or sent, and the set of
active users, the chunk buffer and the negotiation variables are as before. -/
theorem malformed_payload_discarded (maxArgs : Nat) (username : JSString)
    (activeUsers : List JSString) (fb : FileBuffer) (cfg : PeerConfig) (env : PcEnv)
    (st : Negotiation) :
    ((ws_onmessage username activeUsers none).delivered = [] ∧
      (ws_onmessage username activeUsers none).activeUsers = activeUsers ∧
      (ws_onmessage username activeUsers none).caught = true) ∧
    ((dc_onmessage maxArgs username fb none).delivered = [] ∧
      (dc_onmessage maxArgs username fb none).fileBuffer = fb ∧
      (dc_onmessage maxArgs username fb none).caught = true) ∧
    ((signalWs_onmessage cfg env st none).effects = [] ∧
      (signalWs_onmessage cfg env st none).state = st ∧
      signalWs_onmessage_steps cfg env st none = []) :=
  ⟨⟨rfl, rfl, rfl⟩, ⟨rfl, rfl, rfl⟩, ⟨rfl, rfl, rfl⟩⟩

/-! ## `sendFile` on a transport that is not open -/

/-- Counterexample to C13 as stated: on a relayed socket that is closed,
`ws.sendFile` completes normally; it throws nothing and emits nothing. -/
theorem relayed_sendFile_not_open_returns :
    (ws_sendFile exampleMaxArgs (lit "alice") 3
        { name := lit "a.txt", type := lit "text/plain", bytes := [104, 105] }).threw = false ∧
    (ws_sendFile exampleMaxArgs (lit "alice") 3
        { name := lit "a.txt", type := lit "text/plain", bytes := [104, 105] }).emitted = [] := by
  constructor <;> decide

/-- Claim C13, amended. Called while its transport is not open, `sendFile`
emits no envelope on either transport; on the peer transport it throws before
anything is read, on the relayed transport it returns normally without an
error. -/
theorem sendFile_not_open (maxArgs : Nat) (username : JSString) (file : File) :
    (∀ (ch : ChannelView), ch.readyState ≠ DcState.open →
      localDC_sendFile username ch file =
        some { emitted := [], attempts := 0, threw := true }) ∧
    (∀ (readyState : Nat), readyState ≠ 1 →
      ws_sendFile maxArgs username readyState file =
        { emitted := [], attempts := 0, threw := false }) := by
  constructor
  · intro ch h
    simp [localDC_sendFile, h]
  · intro readyState h
    simp [ws_sendFile, h]

/-- Witness of C13, amended: a data channel that is still connecting. -/
theorem sendFile_not_open_witness :
    DcState.connecting ≠ DcState.open ∧
    localDC_sendFile (lit "alice") { readyState := DcState.connecting, sendOk := fun _ => true }
        { name := lit "a.txt", type := lit "text/plain", bytes := [104, 105] } =
      some { emitted := [], attempts := 0, threw := true } :=
  ⟨by decide,
   (sendFile_not_open exampleMaxArgs (lit "alice")
      { name := lit "a.txt", type := lit "text/plain", bytes := [104, 105] }).1
      { readyState := DcState.connecting, sendOk := fun _ => true } (by decide)⟩

/-! ## File chunks on the relayed transport -/

theorem lit_file_chunk_ne_users : lit "file_chunk" ≠ lit "users" := by decide

theorem lit_file_chunk_ne_chat : lit "file_chunk" ≠ lit "chat" := by decide

/-- The relayed handler on a `file_chunk` envelope. -/
theorem ws_onmessage_file_chunk (username : JSString) (activeUsers : List JSString)
    (data : RelayEnvelope) (ht : data.type = lit "file_chunk") :
    ws_onmessage username activeUsers (some data) =
      match atob (stringOfProp data.chunk) with
      | none => { activeUsers := activeUsers, delivered := [], caught := true }
      | some bytes =>
        { activeUsers := activeUsers,
          delivered := [{ type := lit "file", sender := data.sender,
                          filename := data.filename,
                          blob := some { bytes := bytes,
                                         type := blobType (mimeOrDefault data.mime) } }] } := by
  simp only [ws_onmessage, ht, if_neg lit_file_chunk_ne_users, if_true]
  rw [if_neg (fun h => lit_file_chunk_ne_chat h.1)]

/-- Counterexample to C14 as stated: a `file_chunk` envelope without `end`
makes the relayed handler emit a `file` event at once. -/
theorem relayed_chunk_without_end_emits :
    (ws_onmessage (lit "alice") []
        (some { type := lit "file_chunk", sender := some (lit "bob"),
                filename := some (lit "a.txt"), chunk := some (lit "aGk="),
                mime := some (lit "text/plain"), endFlag := false })).delivered =
      [{ type := lit "file", sender := some (lit "bob"), filename := some (lit "a.txt"),
         blob := some { bytes := [104, 105], type := lit "text/plain" } }] := by
  decide

/-- Claim C14, amended. The relayed handler accumulates nothing: every
`file_chunk` envelope is decoded on its own, and a `file` event with the decoded
bytes is emitted for it whenever its `chunk` is valid base 64, whatever its
`end` flag; when the `chunk` is not valid base 64 nothing is emitted.  The blob
of the event has the type a `Blob` gives to `data.mime`, or to the default
when `mime` is missing or empty. -/
theorem relayed_file_chunk_each_emits (username : JSString) (activeUsers : List JSString)
    (data : RelayEnvelope) (ht : data.type = lit "file_chunk") :
    (∀ bytes, atob (stringOfProp data.chunk) = some bytes →
      (ws_onmessage username activeUsers (some data)).delivered =
        [{ type := lit "file", sender := data.sender, filename := data.filename,
           blob := some { bytes := bytes,
                          type := blobType (mimeOrDefault data.mime) } }]) ∧
    (atob (stringOfProp data.chunk) = none →
      (ws_onmessage username activeUsers (some data)).delivered = []) ∧
    (∀ flag : Bool,
      ws_onmessage username activeUsers (some { data with endFlag := flag }) =
        ws_onmessage username activeUsers (some data)) ∧
    (ws_onmessage username activeUsers (some data)).activeUsers = activeUsers := by
  have h := ws_onmessage_file_chunk username activeUsers data ht
  refine ⟨?_, ?_, ?_, ?_⟩
  · intro bytes hb
    rw [h, hb]
  · intro hb
    rw [h, hb]
  · intro flag
    rw [h, ws_onmessage_file_chunk username activeUsers { data with endFlag := flag } ht]
  · rw [h]
    cases atob (stringOfProp data.chunk) <;> rfl

/-- Witness of C14, amended: the envelope of the counterexample. -/
theorem relayed_file_chunk_each_emits_witness :
    (lit "file_chunk" = lit "file_chunk" ∧ atob (lit "aGk=") = some [104, 105]) ∧
    (ws_onmessage (lit "alice") []
        (some { type := lit "file_chunk", sender := some (lit "bob"),
                filename := some (lit "a.txt"), chunk := some (lit "aGk=") })).delivered =
      [{ type := lit "file", sender := some (lit "bob"), filename := some (lit "a.txt"),
         blob := some { bytes := [104, 105],
                        type := lit "application/octet-stream" } }] :=
  ⟨⟨rfl, by decide⟩,
   (relayed_file_chunk_each_emits (lit "alice") []
      { type := lit "file_chunk", sender := some (lit "bob"),
        filename := some (lit "a.txt"), chunk := some (lit "aGk=") } rfl).1
      [104, 105] (by decide)⟩

/-! ## The close of the signaling socket -/

/-- The handler `signalWs.onclose` calls `onClose` once, in every state; it
closes the peer connection when `dc` is `localDC` and `pc.close()` does not
throw. -/
theorem signalWs_onclose_local (env : PeerCloseEnv) (s : PeerConn) :
    (signalWs_onclose env s).2 = 1 ∧
      (s.remoteDC = none → env.pcCloseThrows = false →
        (signalWs_onclose env s).1.pcClosed = true) := by
  constructor
  · unfold signalWs_onclose
    cases s.remoteDC <;> rfl
  · intro hr hp
    unfold signalWs_onclose
    rw [hr]
    cases h1 : env.dcCloseThrows <;> cases h3 : env.signalCloseThrows <;>
      by_cases hopen : s.signalWs = 1 <;>
      simp [localDC_safeClose, closeSignaling, closePeerConnection, closeCurrentChannel,
        hp, h1, h3, hr]

/-- Claim C16, the code at the failing input. Once a channel received through
`ondatachannel` is the current channel, the close of the signaling socket calls
`onClose` but leaves the peer connection and both channels open: the variable
`dc` then refers to a channel without `_safeClose`. -/
theorem signaling_close_leaves_pc_open :
    signalWs_onclose
        { dcCloseThrows := false, pcCloseThrows := false, signalCloseThrows := false }
        { localDC := .open, remoteDC := some .open, pcClosed := false, signalWs := 1 } =
      ({ localDC := .open, remoteDC := some .open, pcClosed := false, signalWs := 3 }, 1) := by
  decide

/-! ## `makingOffer` -/

/-- The run of the handler on a `peer-joined` message from another user. -/
theorem peer_joined_run (cfg : PeerConfig) (env : PcEnv) (st : Negotiation)
    (msg : SignalMsg) (ht : msg.type = lit "peer-joined")
    (hu : msg.username ≠ some cfg.username) :
    signalWs_onmessage cfg env st (some msg) =
      { state := { st with polite := jsGtProp cfg.username msg.username,
                           makingOffer := false },
        effects :=
          .onMessage { type := lit "join", username := msg.username } :: offerSteps cfg env,
        caught := offerThrows env } := by
  simp [signalWs_onmessage, ht, lit_peer_joined_ne_users, lit_peer_joined_ne_peer_left,
    notSelf, hu]

theorem createOffer_mem_offerSteps (cfg : PeerConfig) (env : PcEnv) :
    SigEffect.createOffer ∈ offerSteps cfg env := by
  unfold offerSteps
  split
  · simp
  · split <;> simp

/-- Counterexample to C17 as stated: `carol` joins while the offer started for
`bob` is still under construction (`makingOffer` is true), and a second offer
construction starts. -/
theorem second_offer_started_while_making :
    (duringOffer { username := lit "alice", room := lit "r1" } Negotiation.initial
        (some (lit "bob"))).makingOffer = true ∧
    (signalWs_onmessage { username := lit "alice", room := lit "r1" } (okEnv .stable)
        (duringOffer { username := lit "alice", room := lit "r1" } Negotiation.initial
          (some (lit "bob")))
        (some { type := lit "peer-joined", username := some (lit "carol") })).effects =
      [.onMessage { type := lit "join", username := some (lit "carol") },
       .createOffer,
       .setLocalDescription { type := lit "offer", sdp := lit "o" },
       .signalSend { type := lit "offer", room := some (lit "r1"),
                     username := some (lit "alice"),
                     sdp := some { type := lit "answer", sdp := lit "a" } }] := by
  constructor <;> decide

/-- Claim C17, amended. The variable `makingOffer` does not gate the
`peer-joined` branch: a `peer-joined` message from another user starts an offer
construction (`createOffer` is called) whether `makingOffer` is true or false,
and the run is the same for both values.  The variable is read only by the
collision test of the offer branch. -/
theorem peer_joined_always_offers (cfg : PeerConfig) (env : PcEnv) (st : Negotiation)
    (msg : SignalMsg) (ht : msg.type = lit "peer-joined")
    (hu : msg.username ≠ some cfg.username) :
    SigEffect.createOffer ∈ (signalWs_onmessage cfg env st (some msg)).effects ∧
      (signalWs_onmessage cfg env st (some msg)).effects =
        .onMessage { type := lit "join", username := msg.username } :: offerSteps cfg env ∧
      (∀ flag : Bool,
        signalWs_onmessage cfg env { st with makingOffer := flag } (some msg) =
          signalWs_onmessage cfg env st (some msg)) := by
  have h := peer_joined_run cfg env st msg ht hu
  refine ⟨?_, ?_, ?_⟩
  · rw [h]
    exact List.mem_cons_of_mem _ (createOffer_mem_offerSteps cfg env)
  · rw [h]
  · intro flag
    rw [h, peer_joined_run cfg env { st with makingOffer := flag } msg ht hu]

/-- Witness of C17, amended: the second `peer-joined` of the counterexample. -/
theorem peer_joined_always_offers_witness :
    (lit "peer-joined" = lit "peer-joined" ∧ some (lit "carol") ≠ some (lit "alice")) ∧
    SigEffect.createOffer ∈
      (signalWs_onmessage { username := lit "alice", room := lit "r1" } (okEnv .stable)
        { makingOffer := true, ignoreOffer := false, polite := false }
        (some { type := lit "peer-joined", username := some (lit "carol") })).effects :=
  ⟨⟨rfl, by decide⟩,
   (peer_joined_always_offers { username := lit "alice", room := lit "r1" } (okEnv .stable)
      { makingOffer := true, ignoreOffer := false, polite := false }
      { type := lit "peer-joined", username := some (lit "carol") } rfl (by decide)).1⟩

theorem callsOf_map_call (es : List SigEffect) : callsOf (es.map SigStep.call) = es := by
  induction es with
  | nil => rfl
  | cons e es ih =>
    simp only [callsOf, List.map_cons, List.filterMap_cons] at ih ⊢
    rw [ih]

theorem foldl_apply_map_call (es : List SigEffect) (st : Negotiation) :
    (es.map SigStep.call).foldl SigStep.apply st = st := by
  induction es with
  | nil => rfl
  | cons e es ih => simpa [SigStep.apply] using ih

theorem makingOfferAtCalls_map_call (flag : Bool) (es : List SigEffect) (tail : List SigStep) :
    makingOfferAtCalls flag (es.map SigStep.call ++ tail) =
      es.map (fun e => (e, flag)) ++ makingOfferAtCalls flag tail := by
  induction es with
  | nil => rfl
  | cons e es ih => simp [makingOfferAtCalls, ih]

theorem setMakingOffer_not_mem_map_call (b : Bool) (es : List SigEffect) :
    SigStep.setMakingOffer b ∉ es.map SigStep.call := by
  simp

theorem offerSteps_isOfferConstruction (cfg : PeerConfig) (env : PcEnv) :
    ∀ e ∈ offerSteps cfg env, e.isOfferConstruction = true := by
  intro e he
  unfold offerSteps at he
  split at he
  · simp at he; subst he; rfl
  · split at he
    · simp at he
      rcases he with rfl | rfl | rfl
      · rfl
      · rfl
      · simp [SigEffect.isOfferConstruction]
    · simp at he
      rcases he with rfl | rfl <;> rfl

/-- The sequence of steps of a run that is not the `peer-joined` branch for
another user has no assignment to `makingOffer`. -/
theorem steps_without_makingOffer (cfg : PeerConfig) (env : PcEnv) (st : Negotiation)
    (p : Option SignalMsg)
    (hp : ∀ msg, p = some msg →
      ¬ (msg.type = lit "peer-joined" ∧ msg.username ≠ some cfg.username)) :
    ∀ s ∈ signalWs_onmessage_steps cfg env st p, ∀ b, s ≠ SigStep.setMakingOffer b := by
  intro s hs b
  cases p with
  | none => simp [signalWs_onmessage_steps] at hs
  | some msg =>
    have hnot := hp msg rfl
    simp only [signalWs_onmessage_steps] at hs
    split at hs
    · simp at hs; subst hs; simp
    · split at hs
      · simp at hs; subst hs; simp
      · split at hs
        · rename_i hpj
          have hself : notSelf cfg msg = false := by
            simp only [notSelf, decide_eq_false_iff_not]
            exact fun hne => hnot ⟨hpj, hne⟩
          simp [hself] at hs
          subst hs
          simp
        · split at hs
          · split at hs
            · simp at hs; subst hs; simp
            · simp at hs
              rcases hs with rfl | ⟨e, _, rfl⟩ <;> simp
          · split at hs
            · simp at hs; subst hs; simp
            · split at hs
              · split at hs
                · simp at hs
                · simp at hs
                · simp at hs; subst hs; simp
              · simp at hs

/-- The sequence of steps is the handler: its calls are the calls of the run
and its assignments lead to the state the run leaves. -/
theorem steps_consistent (cfg : PeerConfig) (env : PcEnv) (st : Negotiation)
    (p : Option SignalMsg) :
    callsOf (signalWs_onmessage_steps cfg env st p) =
        (signalWs_onmessage cfg env st p).effects ∧
      (signalWs_onmessage_steps cfg env st p).foldl SigStep.apply st =
        (signalWs_onmessage cfg env st p).state := by
  cases p with
  | none => exact ⟨rfl, rfl⟩
  | some msg =>
    simp only [signalWs_onmessage_steps, signalWs_onmessage]
    split
    · exact ⟨rfl, rfl⟩
    · split
      · exact ⟨rfl, rfl⟩
      · split
        · split
          · constructor
            · simp [callsOf, List.filterMap_append]
              have := callsOf_map_call (offerSteps cfg env)
              simpa [callsOf] using this
            · simp [List.foldl_append, SigStep.apply, foldl_apply_map_call]
          · exact ⟨rfl, rfl⟩
        · split
          · split
            · exact ⟨rfl, rfl⟩
            · constructor
              · have := callsOf_map_call (answerSteps cfg env msg.sdp)
                simpa [callsOf] using this
              · simp [SigStep.apply, foldl_apply_map_call]
          · split
            · exact ⟨rfl, rfl⟩
            · split
              · split <;> exact ⟨rfl, rfl⟩
              · exact ⟨rfl, rfl⟩

theorem makingOfferAtCalls_const (steps : List SigStep)
    (h : ∀ s ∈ steps, ∀ b, s ≠ SigStep.setMakingOffer b) :
    ∀ (flag : Bool), ∀ x ∈ makingOfferAtCalls flag steps, x.2 = flag := by
  induction steps with
  | nil => intro flag x hx; simp [makingOfferAtCalls] at hx
  | cons s rest ih =>
    intro flag x hx
    have hrest := ih (fun t ht => h t (List.mem_cons_of_mem _ ht))
    cases s with
    | call e =>
      simp only [makingOfferAtCalls, List.mem_cons] at hx
      rcases hx with rfl | hx
      · rfl
      · exact hrest flag x hx
    | setPolite b => exact hrest flag x (by simpa [makingOfferAtCalls] using hx)
    | setMakingOffer b => exact absurd rfl (h _ (List.mem_cons_self _ _) b)
    | setIgnoreOffer b => exact hrest flag x (by simpa [makingOfferAtCalls] using hx)

theorem foldl_apply_makingOffer (steps : List SigStep)
    (h : ∀ s ∈ steps, ∀ b, s ≠ SigStep.setMakingOffer b) :
    ∀ (st : Negotiation), (steps.foldl SigStep.apply st).makingOffer = st.makingOffer := by
  induction steps with
  | nil => intro st; rfl
  | cons s rest ih =>
    intro st
    have hrest := ih (fun t ht => h t (List.mem_cons_of_mem _ ht))
    rw [List.foldl_cons, hrest]
    cases s with
    | call e => rfl
    | setPolite b => rfl
    | setMakingOffer b => exact absurd rfl (h _ (List.mem_cons_self _ _) b)
    | setIgnoreOffer b => rfl

/-- The steps of the `peer-joined` branch for a message from another user. -/
theorem peer_joined_steps (cfg : PeerConfig) (env : PcEnv) (st : Negotiation)
    (msg : SignalMsg) (ht : msg.type = lit "peer-joined")
    (hu : msg.username ≠ some cfg.username) :
    signalWs_onmessage_steps cfg env st (some msg) =
      [.call (.onMessage { type := lit "join", username := msg.username }),
       .setPolite (jsGtProp cfg.username msg.username),
       .setMakingOffer true] ++
        (offerSteps cfg env).map SigStep.call ++ [.setMakingOffer false] := by
  simp [signalWs_onmessage_steps, ht, lit_peer_joined_ne_users,
    lit_peer_joined_ne_peer_left, notSelf, hu]

/-- Claim C18. The variable `makingOffer` is false initially.  In a run of the
signaling handler it is assigned only by the `peer-joined` branch for a message
from another user: `true` right before the offer construction and `false` as
the last step of the run, whatever `createOffer`, `setLocalDescription` and the
send do (succeed or throw).  No other message assigns it or changes it.  In a
run that starts with `makingOffer` false, every call made while it is true is a
call of the offer construction. -/
theorem makingOffer_discipline (cfg : PeerConfig) (env : PcEnv) (st : Negotiation)
    (p : Option SignalMsg) :
    let steps := signalWs_onmessage_steps cfg env st p
    let after := (signalWs_onmessage cfg env st p).state
    Negotiation.initial.makingOffer = false ∧
      (callsOf steps = (signalWs_onmessage cfg env st p).effects ∧
        steps.foldl SigStep.apply st = after) ∧
      (∀ msg, p = some msg → msg.type = lit "peer-joined" →
        msg.username ≠ some cfg.username →
        steps =
            [.call (.onMessage { type := lit "join", username := msg.username }),
             .setPolite (jsGtProp cfg.username msg.username),
             .setMakingOffer true] ++
              (offerSteps cfg env).map SigStep.call ++ [.setMakingOffer false] ∧
          after.makingOffer = false) ∧
      ((∀ msg, p = some msg →
          ¬ (msg.type = lit "peer-joined" ∧ msg.username ≠ some cfg.username)) →
        (∀ s ∈ steps, ∀ b, s ≠ SigStep.setMakingOffer b) ∧
          after.makingOffer = st.makingOffer) ∧
      (∀ e, (e, true) ∈ makingOfferAtCalls false steps → e.isOfferConstruction = true) := by
  intro steps after
  have hcons := steps_consistent cfg env st p
  have hother : (∀ msg, p = some msg →
        ¬ (msg.type = lit "peer-joined" ∧ msg.username ≠ some cfg.username)) →
      (∀ s ∈ steps, ∀ b, s ≠ SigStep.setMakingOffer b) ∧
        after.makingOffer = st.makingOffer := by
    intro hp
    have hno := steps_without_makingOffer cfg env st p hp
    refine ⟨hno, ?_⟩
    have := foldl_apply_makingOffer steps hno st
    rw [hcons.2] at this
    exact this
  refine ⟨rfl, hcons, ?_, hother, ?_⟩
  · intro msg hp ht hu
    subst hp
    refine ⟨peer_joined_steps cfg env st msg ht hu, ?_⟩
    simp only [after]
    rw [peer_joined_run cfg env st msg ht hu]
  · intro e he
    by_cases hp : ∀ msg, p = some msg →
        ¬ (msg.type = lit "peer-joined" ∧ msg.username ≠ some cfg.username)
    · have hflag := makingOfferAtCalls_const steps (hother hp).1 false (e, true) he
      exact Bool.noConfusion hflag
    · push_neg at hp
      obtain ⟨msg, hmsg, ht, hu⟩ := hp
      subst hmsg
      simp only [steps] at he
      rw [peer_joined_steps cfg env st msg ht hu] at he
      have hcalc : makingOfferAtCalls false
          ([.call (.onMessage { type := lit "join", username := msg.username }),
            .setPolite (jsGtProp cfg.username msg.username),
            .setMakingOffer true] ++
              (offerSteps cfg env).map SigStep.call ++ [.setMakingOffer false]) =
          (SigEffect.onMessage { type := lit "join", username := msg.username }, false) ::
            (offerSteps cfg env).map (fun x => (x, true)) := by
        have hmid := makingOfferAtCalls_map_call true (offerSteps cfg env)
          [SigStep.setMakingOffer false]
        simp only [makingOfferAtCalls, List.append_nil] at hmid
        simp only [List.cons_append, List.nil_append, makingOfferAtCalls, List.append_assoc]
        exact congrArg (List.cons _) hmid
      rw [hcalc] at he
      simp only [List.mem_cons, Prod.mk.injEq, List.mem_map] at he
      rcases he with ⟨_, hfalse⟩ | ⟨x, hx, hxe⟩
      · exact absurd hfalse (by decide)
      · obtain ⟨rfl, _⟩ := hxe
        exact offerSteps_isOfferConstruction cfg env _ hx

/-- Witness of C18: `bob` joins and `createOffer` is rejected; the run of
`alice` still ends with `makingOffer` false. -/
theorem makingOffer_discipline_witness :
    (lit "peer-joined" = lit "peer-joined" ∧ some (lit "bob") ≠ some (lit "alice")) ∧
    (signalWs_onmessage { username := lit "alice", room := lit "r1" }
        { signalingState := .stable, createOffer := none, createAnswer := none,
          setLocalDescriptionOk := false, setRemoteDescriptionOk := false,
          addIceCandidateOk := false, localDescription := none, signalSendOk := false }
        Negotiation.initial
        (some { type := lit "peer-joined", username := some (lit "bob") })).state.makingOffer
      = false :=
  ⟨⟨rfl, by decide⟩,
   ((makingOffer_discipline { username := lit "alice", room := lit "r1" }
      { signalingState := .stable, createOffer := none, createAnswer := none,
        setLocalDescriptionOk := false, setRemoteDescriptionOk := false,
        addIceCandidateOk := false, localDescription := none, signalSendOk := false }
      Negotiation.initial
      (some { type := lit "peer-joined", username := some (lit "bob") })).2.2.1
      { type := lit "peer-joined", username := some (lit "bob") } rfl rfl (by decide)).2⟩

/-! ## The send loop and a channel that closes -/

/-- The loop of `localDC.sendFile` when the send number `k` is the first that
fails: the sends before it go out, the send number `k` is attempted if bytes
are left and throws, and nothing follows. -/
theorem sendLoop_first_failure (username : JSString) (file : File) (sendOk : Nat → Bool)
    (k : Nat) (hfail : sendOk k = false) :
    ∀ (fuel k0 i : Nat), file.bytes.length - i < fuel → k0 ≤ k →
      (∀ j, k0 ≤ j → j < k → sendOk j = true) →
      ∃ r, sendLoop username file sendOk fuel k0 i = some r ∧
        r.attempts ≤ k - k0 + 1 ∧ r.emitted.length ≤ k - k0 ∧
        (i + (k - k0) * chunkSize < file.bytes.length →
          r.threw = true ∧ r.attempts = k - k0 + 1 ∧ r.emitted.length = k - k0) ∧
        (file.bytes.length ≤ i + (k - k0) * chunkSize → r.threw = false) ∧
        chunkBytes r.emitted = (file.bytes.drop i).take ((k - k0) * chunkSize) := by
  intro fuel
  induction fuel with
  | zero =>
    intro k0 i h
    exact absurd h (Nat.not_lt_zero _)
  | succ n ih =>
    intro k0 i h hk0 hbefore
    have hcs : chunkSize = 16000 := rfl
    by_cases hi : i < file.bytes.length
    · by_cases hk : k0 = k
      · subst hk
        have hloop : sendLoop username file sendOk (n + 1) k0 i =
            some { emitted := [], attempts := 1, threw := true } := by
          simp only [sendLoop, hi, if_true, hfail]
          rfl
        refine ⟨_, hloop, by simp, by simp, ?_, ?_, ?_⟩
        · intro _
          simp
        · intro hle
          simp at hle
          omega
        · simp [chunkBytes]
      · have hlt : k0 < k := Nat.lt_of_le_of_ne hk0 hk
        obtain ⟨rest, hrest, hatt, hlen, hthrow, hdone, hbytes⟩ :=
          ih (k0 + 1) (i + chunkSize) (by omega) (by omega)
            (fun j hj1 hj2 => hbefore j (by omega) hj2)
        have hloop : sendLoop username file sendOk (n + 1) k0 i =
            some { emitted :=
                     { type := lit "file_chunk", sender := some username,
                       filename := some file.name,
                       chunk := some ((file.bytes.drop i).take chunkSize),
                       endFlag := decide (i + chunkSize ≥ file.bytes.length) } ::
                       rest.emitted,
                   attempts := rest.attempts + 1,
                   threw := rest.threw } := by
          simp only [sendLoop, hi, if_true, hbefore k0 (Nat.le_refl _) hlt, hrest,
            Option.map_some']
        have hsplit : (k - k0) * chunkSize = chunkSize + (k - (k0 + 1)) * chunkSize := by
          rw [hcs]; omega
        refine ⟨_, hloop, ?_, ?_, ?_, ?_, ?_⟩
        · simp only
          omega
        · simp only [List.length_cons]
          omega
        · intro hrem
          obtain ⟨h1, h2, h3⟩ := hthrow (by rw [hcs] at hrem ⊢; omega)
          refine ⟨h1, ?_, ?_⟩
          · simp only
            omega
          · simp only [List.length_cons]
            omega
        · intro hle
          exact hdone (by rw [hcs] at hle ⊢; omega)
        · have hrestBytes : chunkBytes rest.emitted =
              List.take ((k - (k0 + 1)) * chunkSize)
                (List.drop chunkSize (List.drop i file.bytes)) := by
            rw [hbytes, List.drop_drop, Nat.add_comm]
          have hcons : chunkBytes
              ({ type := lit "file_chunk", sender := some username,
                 filename := some file.name,
                 chunk := some ((file.bytes.drop i).take chunkSize),
                 endFlag := decide (i + chunkSize ≥ file.bytes.length) } :: rest.emitted) =
              (file.bytes.drop i).take chunkSize ++ chunkBytes rest.emitted := by
            simp [chunkBytes]
          simp only
          rw [hcons, hrestBytes, hsplit, List.take_add]
    · have hloop : sendLoop username file sendOk (n + 1) k0 i =
          some { emitted := [], attempts := 0, threw := false } := by
        simp only [sendLoop, hi, if_false]
      refine ⟨_, hloop, by simp, by simp, ?_, ?_, ?_⟩
      · intro hrem
        omega
      · intro _
        rfl
      · simp [chunkBytes, List.drop_eq_nil_of_le (Nat.le_of_not_lt hi)]

/-- Counterexample to C15 as stated: the channel is open when `sendFile` is
called and has left the open state when the loop starts; the send of the first
chunk is attempted all the same, and throws. -/
theorem send_attempted_after_channel_closed :
    (localDC_sendFile (lit "alice") { readyState := DcState.open, sendOk := fun _ => false }
        { name := lit "a.txt", type := lit "text/plain", bytes := [104, 105] }).map
      (fun r => (r.attempts, r.threw, r.emitted.length)) = some (1, true, 0) := by
  decide

/-- Claim C15, amended. The loop of `localDC.sendFile` tests the state of the
channel only before it starts.  When the channel leaves the open state during
the transfer, so that the send number `k` is the first to fail, the chunks
before it have gone out, the send number `k` is attempted if bytes are left, it
throws and ends the loop, and `sendFile` fails: one send is attempted after
that point, none after that one, and no envelope is emitted after it. -/
theorem sendFile_stops_at_failed_send (username : JSString) (file : File)
    (sendOk : Nat → Bool) (k : Nat) (hbefore : ∀ j, j < k → sendOk j = true)
    (hfail : sendOk k = false) :
    ∃ r, localDC_sendFile username { readyState := DcState.open, sendOk := sendOk } file
          = some r ∧
      r.attempts ≤ k + 1 ∧ r.emitted.length ≤ k ∧
      (k * 16000 < file.bytes.length →
        r.threw = true ∧ r.attempts = k + 1 ∧ r.emitted.length = k) ∧
      (file.bytes.length ≤ k * 16000 → r.threw = false) ∧
      chunkBytes r.emitted = file.bytes.take (k * 16000) := by
  obtain ⟨r, hr, hatt, hlen, hthrow, hdone, hbytes⟩ :=
    sendLoop_first_failure username file sendOk k hfail (file.bytes.length + 1) 0 0
      (by omega) (Nat.zero_le _) (fun j _ hj => hbefore j hj)
  have hcs : chunkSize = 16000 := rfl
  refine ⟨r, by simp [localDC_sendFile, hr], by simpa using hatt, by simpa using hlen,
    ?_, ?_, ?_⟩
  · intro hrem
    have := hthrow (by rw [hcs]; simpa using hrem)
    simpa using this
  · intro hle
    exact hdone (by rw [hcs]; simpa using hle)
  · simpa [hcs] using hbytes

/-- Witness of C15, amended: the channel of the counterexample, with the first
send failing. -/
theorem sendFile_stops_at_failed_send_witness :
    ((∀ j, j < 0 → (fun _ : Nat => false) j = true) ∧ (fun _ : Nat => false) 0 = false) ∧
    ∃ r, localDC_sendFile (lit "alice")
          { readyState := DcState.open, sendOk := fun _ => false }
          { name := lit "a.txt", type := lit "text/plain", bytes := [104, 105] } = some r ∧
        r.attempts ≤ 1 := by
  refine ⟨⟨fun j hj => absurd hj (Nat.not_lt_zero j), rfl⟩, ?_⟩
  obtain ⟨r, hr, hatt, _⟩ := sendFile_stops_at_failed_send (lit "alice")
    { name := lit "a.txt", type := lit "text/plain", bytes := [104, 105] }
    (fun _ => false) 0 (fun j hj => absurd hj (Nat.not_lt_zero j)) rfl
  exact ⟨r, hr, hatt⟩

/-! ## Base 64 round trip -/

theorem base64Value_base64Char : ∀ n, n < 64 → base64Value (base64Char n) = some n := by
  decide

theorem base64Char_plain : ∀ n, n < 64 →
    base64Char n ≠ 61 ∧ base64Char n ≠ 9 ∧ base64Char n ≠ 10 ∧ base64Char n ≠ 12 ∧
      base64Char n ≠ 13 ∧ base64Char n ≠ 32 := by
  decide

theorem mapM_base64Value_map (l : List Nat) (h : ∀ x ∈ l, x < 64) :
    (l.map base64Char).mapM base64Value = some l := by
  induction l with
  | nil => rfl
  | cons x xs ih =>
    have hx := base64Value_base64Char x (h x (by simp))
    have hxs := ih (fun y hy => h y (by simp [hy]))
    rw [List.map_cons, List.mapM_cons, hx, hxs]
    rfl

theorem btoa_eq_sextets : ∀ (b : List Nat),
    btoa b = (sextetsOf b).map base64Char ++ paddingOf b
  | a :: b :: c :: rest => by
    simp only [btoa, sextetsOf, paddingOf, List.map_cons, List.cons_append]
    rw [btoa_eq_sextets rest]
  | [a, b] => rfl
  | [a] => rfl
  | [] => rfl

theorem sextetsOf_lt : ∀ (b : List Nat), (∀ x ∈ b, x < 256) → ∀ y ∈ sextetsOf b, y < 64
  | a :: b :: c :: rest => by
    intro h y hy
    have ha : a < 256 := h a (by simp)
    have hb : b < 256 := h b (by simp)
    have hc : c < 256 := h c (by simp)
    simp only [sextetsOf, List.mem_cons] at hy
    rcases hy with rfl | rfl | rfl | rfl | hy
    · omega
    · omega
    · omega
    · omega
    · exact sextetsOf_lt rest (fun x hx => h x (by simp [hx])) y hy
  | [a, b] => by
    intro h y hy
    have ha : a < 256 := h a (by simp)
    have hb : b < 256 := h b (by simp)
    simp only [sextetsOf, List.mem_cons, List.mem_singleton, List.not_mem_nil, or_false] at hy
    rcases hy with rfl | rfl | rfl <;> omega
  | [a] => by
    intro h y hy
    have ha : a < 256 := h a (by simp)
    simp only [sextetsOf, List.mem_cons, List.mem_singleton, List.not_mem_nil, or_false] at hy
    rcases hy with rfl | rfl <;> omega
  | [] => by
    intro _ y hy
    simp [sextetsOf] at hy

theorem decodeSextets_sextetsOf : ∀ (b : List Nat), (∀ x ∈ b, x < 256) →
    decodeSextets (sextetsOf b) = b
  | a :: b :: c :: rest => by
    intro h
    have ha : a < 256 := h a (by simp)
    have hb : b < 256 := h b (by simp)
    have hc : c < 256 := h c (by simp)
    have hrest := decodeSextets_sextetsOf rest (fun x hx => h x (by simp [hx]))
    simp only [sextetsOf, decodeSextets, hrest]
    have h1 : a / 4 * 4 + (a % 4 * 16 + b / 16) / 16 = a := by omega
    have h2 : (a % 4 * 16 + b / 16) % 16 * 16 + (b % 16 * 4 + c / 64) / 4 = b := by omega
    have h3 : (b % 16 * 4 + c / 64) % 4 * 64 + c % 64 = c := by omega
    rw [h1, h2, h3]
  | [a, b] => by
    intro h
    have ha : a < 256 := h a (by simp)
    have hb : b < 256 := h b (by simp)
    simp only [sextetsOf, decodeSextets]
    have h1 : a / 4 * 4 + (a % 4 * 16 + b / 16) / 16 = a := by omega
    have h2 : (a % 4 * 16 + b / 16) % 16 * 16 + b % 16 * 4 / 4 = b := by omega
    rw [h1, h2]
  | [a] => by
    intro h
    have ha : a < 256 := h a (by simp)
    simp only [sextetsOf, decodeSextets]
    have h1 : a / 4 * 4 + a % 4 * 16 / 16 = a := by omega
    rw [h1]
  | [] => by
    intro _
    rfl

/-- The shape of what `btoa` writes: the padding is empty, `=` or `==`; with
the padding the length is a multiple of four; without it the length is never
one more than a multiple of four; and there is no padding without characters. -/
theorem sextets_padding_shape : ∀ (b : List Nat),
    (paddingOf b = [] ∨ paddingOf b = [61] ∨ paddingOf b = [61, 61]) ∧
      ((sextetsOf b).length + (paddingOf b).length) % 4 = 0 ∧
      (sextetsOf b).length % 4 ≠ 1 ∧
      (paddingOf b ≠ [] → sextetsOf b ≠ [])
  | a :: b :: c :: rest => by
    obtain ⟨h1, h2, h3, h4⟩ := sextets_padding_shape rest
    refine ⟨by simpa [paddingOf] using h1, ?_, ?_, ?_⟩
    · simp only [sextetsOf, paddingOf, List.length_cons]
      omega
    · simp only [sextetsOf, List.length_cons]
      omega
    · intro _
      simp [sextetsOf]
  | [a, b] => by simp [sextetsOf, paddingOf]
  | [a] => by simp [sextetsOf, paddingOf]
  | [] => by simp [sextetsOf, paddingOf]

theorem stripPadding_append (core pad : List Nat) (hcore : ∀ x ∈ core, x ≠ 61)
    (hpad : pad = [] ∨ pad = [61] ∨ pad = [61, 61]) (hne : pad ≠ [] → core ≠ []) :
    stripPadding (core ++ pad) = core := by
  have hhead : ∀ x xs, core.reverse = x :: xs → x ≠ 61 := by
    intro x xs hx
    apply hcore x
    have : x ∈ core.reverse := by rw [hx]; simp
    simpa using this
  rcases hpad with rfl | rfl | rfl
  · unfold stripPadding
    rw [List.append_nil]
    cases hrev : core.reverse with
    | nil => rfl
    | cons x xs =>
      have hx := hhead x xs hrev
      cases xs with
      | nil => simp [hx]
      | cons y ys => simp [hx]
  · unfold stripPadding
    rw [List.reverse_append]
    cases hrev : core.reverse with
    | nil =>
      have : core = [] := by simpa using hrev
      exact absurd this (hne (by simp))
    | cons x xs =>
      have hx := hhead x xs hrev
      have hcore2 : core = (x :: xs).reverse := by
        rw [← hrev, List.reverse_reverse]
      simp [hx, hcore2]
  · unfold stripPadding
    rw [List.reverse_append]
    simp

/-- Decoding undoes encoding: `atob(btoa(s))` gives back the bytes of `s`. -/
theorem atob_btoa (b : List Nat) (hb : ∀ x ∈ b, x < 256) : atob (btoa b) = some b := by
  have hlt := sextetsOf_lt b hb
  obtain ⟨hpad, hlen, hcore, hne⟩ := sextets_padding_shape b
  have hplain : ∀ c ∈ (sextetsOf b).map base64Char,
      c ≠ 61 ∧ c ≠ 9 ∧ c ≠ 10 ∧ c ≠ 12 ∧ c ≠ 13 ∧ c ≠ 32 := by
    intro c hc
    obtain ⟨n, hn, rfl⟩ := List.mem_map.mp hc
    exact base64Char_plain n (hlt n hn)
  have hfilter : (btoa b).filter
      (fun c => !(c = 9 || c = 10 || c = 12 || c = 13 || c = 32)) = btoa b := by
    rw [List.filter_eq_self]
    intro c hc
    rw [btoa_eq_sextets, List.mem_append] at hc
    rcases hc with hc | hc
    · obtain ⟨_, h9, h10, h12, h13, h32⟩ := hplain c hc
      simp [h9, h10, h12, h13, h32]
    · have : c = 61 := by
        rcases hpad with h | h | h <;> rw [h] at hc <;> simp at hc <;> simp [hc]
      subst this
      decide
  have hstrip : stripPadding (btoa b) = (sextetsOf b).map base64Char := by
    rw [btoa_eq_sextets]
    exact stripPadding_append _ _ (fun x hx => (hplain x hx).1) hpad
      (fun h => by simpa using hne h)
  have hlen4 : (btoa b).length % 4 = 0 := by
    rw [btoa_eq_sextets, List.length_append, List.length_map]
    exact hlen
  simp only [atob, hfilter, hlen4, if_true, hstrip, List.length_map]
  rw [if_neg hcore, mapM_base64Value_map _ hlt]
  simp [decodeSextets_sextetsOf b hb]

/-- What does hold of the relayed round trip: for every sequence of bytes,
decoding (`atob`, then the code of each character) the text `btoa` makes of
the bytes gives the bytes back; and for a file within the argument limit of
the engine the `file` event the relayed handler emits for the envelope of
`ws.sendFile` carries the bytes of the file. -/
theorem relayed_round_trip_within_limit (maxArgs : Nat) (sender receiver : JSString)
    (activeUsers : List JSString) (file : File) (hbytes : ∀ x ∈ file.bytes, x < 256)
    (hfit : file.bytes.length ≤ maxArgs) :
    atob (btoa file.bytes) = some file.bytes ∧
    ∃ e, (ws_sendFile maxArgs sender 1 file).emitted = [e] ∧
      e.chunk = some (btoa file.bytes) ∧
      (ws_onmessage receiver activeUsers (some e)).delivered =
        [{ type := lit "file", sender := some sender, filename := some file.name,
           blob := some { bytes := file.bytes,
                          type := blobType (mimeOrDefault (some file.type)) } }] := by
  have hround := atob_btoa file.bytes hbytes
  have hall : file.bytes.all (fun b => decide (b < 256)) = true := by
    rw [List.all_eq_true]
    intro x hx
    simpa using hbytes x hx
  have hlen : ¬ file.bytes.length > maxArgs := Nat.not_lt.mpr hfit
  refine ⟨hround,
    { type := lit "file_chunk", sender := some sender, filename := some file.name,
      chunk := some (btoa file.bytes), mime := some file.type },
    by simp [ws_sendFile, hall, hlen], rfl, ?_⟩
  rw [ws_onmessage_file_chunk receiver activeUsers _ rfl]
  simp only [stringOfProp, hround]

/-- On an open socket `ws.sendFile` sends nothing for a file with more bytes
than the engine accepts arguments: the call throws. -/
theorem ws_sendFile_over_limit (maxArgs : Nat) (username : JSString) (file : File)
    (hlen : file.bytes.length > maxArgs) :
    (ws_sendFile maxArgs username 1 file).emitted = [] ∧
      (ws_sendFile maxArgs username 1 file).threw = true := by
  simp [ws_sendFile, hlen]

theorem largeFile_length : largeFile.bytes.length = 131072 := by
  unfold largeFile
  exact List.length_replicate _ _

/-- Claim C19, the code at the failing input. The relayed socket is open and
the file has 131072 zero bytes, far below the 60 MB the file handler admits.
`ws.sendFile` spreads all bytes of the file into one call of
`String.fromCharCode`; with an engine that accepts up to 100000 arguments the
call throws, no envelope is sent, so no `file` event with the bytes of the file
reaches the receiver, and the file handler, which has called `sendFile`, shows
the upload toast only.  The peer transport sends the same file in nine chunks
that carry its bytes. -/
theorem relayed_large_file_not_sent :
    (largeFile.size = 131072 ∧ decide (largeFile.size > 60 * 1024 * 1024) = false) ∧
    ((ws_sendFile exampleMaxArgs (lit "alice") 1 largeFile).emitted = [] ∧
      (ws_sendFile exampleMaxArgs (lit "alice") 1 largeFile).threw = true) ∧
    ((App_onFile exampleMaxArgs (lit "alice") (some (Conn.relayed 1))
        largeFile).sendFileCalled = true ∧
      (App_onFile exampleMaxArgs (lit "alice") (some (Conn.relayed 1))
        largeFile).relayEmitted = [] ∧
      (App_onFile exampleMaxArgs (lit "alice") (some (Conn.relayed 1))
        largeFile).toasts =
        [{ message := lit "📤 Uploading clip.bin...", type := lit "info" }]) ∧
    (∃ r, localDC_sendFile (lit "alice")
          { readyState := DcState.open, sendOk := fun _ => true } largeFile = some r ∧
        r.threw = false ∧ r.emitted.length = 9 ∧
        chunkBytes r.emitted = largeFile.bytes) := by
  have hlen : largeFile.bytes.length > exampleMaxArgs := by
    rw [largeFile_length]
    decide
  have hsize : ¬ largeFile.size > maxFileSize := by
    unfold File.size maxFileSize
    rw [largeFile_length]
    decide
  have hws := ws_sendFile_over_limit exampleMaxArgs (lit "alice") largeFile hlen
  refine ⟨⟨largeFile_length, ?_⟩, hws, ?_, ?_⟩
  · unfold File.size
    rw [largeFile_length]
    decide
  · have hname : largeFile.name = lit "clip.bin" := rfl
    simp only [App_onFile, if_neg hsize, notWsOpen, hws.1, hws.2, hname]
    refine ⟨by simp, by simp, ?_⟩
    simp
    decide
  · obtain ⟨r, hr, hthrew, _, _, hbytes, _, _⟩ :=
      sendLoop_spec (lit "alice") largeFile (fun _ => true) (fun _ => rfl)
        (largeFile.bytes.length + 1) 0 0 (by omega)
    obtain ⟨r2, hr2, hcount⟩ :=
      sendLoop_length (lit "alice") largeFile (fun _ => true) (fun _ => rfl)
        (largeFile.bytes.length + 1) 0 0 (by omega)
    have hsame : r2 = r := by
      rw [hr] at hr2
      exact (Option.some.inj hr2).symm
    subst hsame
    refine ⟨r2, by simp [localDC_sendFile, hr], hthrew, ?_, by simpa using hbytes⟩
    rw [hcount, largeFile_length]

/-! ## A file from one peer to the other -/

/-- A non-empty sequence of envelopes of which exactly the last is marked `end`
is an initial part without `end` followed by a last envelope with `end`. -/
theorem split_at_end (es : List PeerEnvelope) (hne : es ≠ [])
    (hidx : ∀ j e, es[j]? = some e → (e.endFlag = true ↔ j + 1 = es.length)) :
    ∃ init last, es = init ++ [last] ∧ (∀ e ∈ init, e.endFlag = false) ∧
      last.endFlag = true := by
  rcases List.eq_nil_or_concat es with h | ⟨init, last, h⟩
  · exact absurd h hne
  · rw [List.concat_eq_append] at h
    refine ⟨init, last, h, ?_, ?_⟩
    · intro e he
      obtain ⟨j, hj⟩ := List.getElem?_of_mem he
      have hjlt : j < init.length := by
        by_contra hge
        rw [List.getElem?_eq_none (Nat.le_of_not_lt hge)] at hj
        exact Option.noConfusion hj
      have hget : es[j]? = some e := by
        rw [h, List.getElem?_append_left hjlt]
        exact hj
      have hiff := hidx j e hget
      rw [h, List.length_append, List.length_singleton] at hiff
      cases hflag : e.endFlag with
      | false => rfl
      | true =>
        have := hiff.mp hflag
        omega
    · have hget : es[init.length]? = some last := by
        rw [h, List.getElem?_append_right (Nat.le_refl _)]
        simp
      have hiff := hidx init.length last hget
      rw [h, List.length_append, List.length_singleton] at hiff
      exact hiff.mpr rfl

/-- What does hold of a file sent from one peer to the other: for a filename
`f` whose lookup on the buffer of the receiver is `undefined` (which leaves out
the names every object inherits), an engine that accepts the 16000 elements of
a chunk as arguments, and a sequence of bytes `b`, `localDC.sendFile` on an
open channel emits exactly `ceil(|b| / 16000)` envelopes; fed in order to the
data-channel handler of the receiver they produce, when `b` is not empty,
exactly one `file` event whose bytes are `b`; when `b` is empty no envelope is
emitted and no `file` event is produced. -/
theorem peer_transfer_of_plain_name (maxArgs : Nat) (sender receiver f mime : JSString)
    (b : List Nat) (hb : ∀ x ∈ b, x < 256) (ch : ChannelView)
    (hopen : ch.readyState = DcState.open) (hok : ∀ k, ch.sendOk k = true)
    (fb : FileBuffer) (hfree : fb.get f = .undefined) (hargs : chunkSize ≤ maxArgs) :
    ∃ r, localDC_sendFile sender ch { name := f, type := mime, bytes := b } = some r ∧
      r.threw = false ∧
      r.emitted.length = (b.length + 15999) / 16000 ∧
      (b ≠ [] →
        (dc_run maxArgs receiver fb (r.emitted.map some)).delivered =
          [{ type := lit "file", sender := some sender, filename := some f,
             blob := some { bytes := b, type := [] } }]) ∧
      (b = [] → r.emitted = [] ∧
        (dc_run maxArgs receiver fb (r.emitted.map some)).delivered = []) := by
  obtain ⟨r, hr, hthrew, _, hnil, hbytes, hfields, hidx⟩ :=
    sendLoop_spec sender { name := f, type := mime, bytes := b } ch.sendOk hok
      (b.length + 1) 0 0 (by simp)
  obtain ⟨r2, hr2, hlen⟩ :=
    sendLoop_length sender { name := f, type := mime, bytes := b } ch.sendOk hok
      (b.length + 1) 0 0 (by simp)
  have hsame : r2 = r := by
    rw [hr] at hr2
    exact (Option.some.inj hr2).symm
  subst hsame
  refine ⟨r2, by simp [localDC_sendFile, hopen, hr], hthrew, by simpa using hlen, ?_, ?_⟩
  · intro hne
    have hemit : r2.emitted ≠ [] := by
      intro hempty
      have hle := hnil.mp hempty
      simp only [Nat.le_zero_eq, List.length_eq_zero] at hle
      exact hne hle
    obtain ⟨init, last, hsplit, hinitEnd, hlastEnd⟩ :=
      split_at_end r2.emitted hemit (fun j e hj => (hidx j e hj).2)
    have hchunk : ∀ e ∈ r2.emitted,
        IsChunkOf f e ∧ ChunkFits maxArgs e ∧ e.sender = some sender := by
      intro e he
      obtain ⟨ht, hs, hf⟩ := hfields e he
      obtain ⟨j, hj⟩ := List.getElem?_of_mem he
      have hc := (hidx j e hj).1
      refine ⟨⟨ht, hf, by rw [hc]; rfl⟩, ?_, hs⟩
      unfold ChunkFits
      rw [hc, Option.getD_some, List.length_take]
      exact Nat.le_trans (Nat.min_le_left _ _) hargs
    obtain ⟨_, hrun, _⟩ := dc_run_fresh maxArgs receiver f fb init last hfree
      (fun e he =>
        ⟨(hchunk e (by rw [hsplit]; simp [he])).1,
         (hchunk e (by rw [hsplit]; simp [he])).2.1, hinitEnd e he⟩)
      (hchunk last (by rw [hsplit]; simp)).1 (hchunk last (by rw [hsplit]; simp)).2.1
      hlastEnd
    have hsender : last.sender = some sender := (hchunk last (by rw [hsplit]; simp)).2.2
    have hall : chunkBytes (init ++ [last]) = b := by
      rw [← hsplit, hbytes]
      simp
    rw [hsplit, hrun, hall, hsender, toUint8Array_of_bytes b hb]
  · intro hempty
    have hnone : r2.emitted = [] := hnil.mpr (by simp [hempty])
    refine ⟨hnone, ?_⟩
    rw [hnone]
    rfl

/-- Claim C20, the code at the failing input. The file is named `toString` and
has the two bytes of `hi`; the channel is open and the buffer of the receiver
is empty, so nothing is pending for any filename.  `localDC.sendFile` emits one
envelope, marked `end`.  In the handler of the receiver the lookup
`fileBuffer["toString"]` yields the function every object inherits, the entry
is not created, `push` is not a function, the `catch` clause runs and no `file`
event is produced, although the file is not empty.  The same bytes under the
name `a.txt` arrive as one `file` event. -/
theorem peer_file_with_inherited_name_lost :
    (∃ r, localDC_sendFile (lit "alice")
          { readyState := DcState.open, sendOk := fun _ => true }
          { name := lit "toString", type := lit "text/plain", bytes := [104, 105] } =
            some r ∧
        r.emitted =
          [{ type := lit "file_chunk", sender := some (lit "alice"),
             filename := some (lit "toString"), chunk := some [104, 105],
             endFlag := true }] ∧
        FileBuffer.empty (lit "toString") = none ∧
        (dc_run exampleMaxArgs (lit "bob") FileBuffer.empty
          (r.emitted.map some)).delivered = [] ∧
        (dc_run exampleMaxArgs (lit "bob") FileBuffer.empty
          (r.emitted.map some)).caught = true) ∧
    (∃ r, localDC_sendFile (lit "alice")
          { readyState := DcState.open, sendOk := fun _ => true }
          { name := lit "a.txt", type := lit "text/plain", bytes := [104, 105] } =
            some r ∧
        (dc_run exampleMaxArgs (lit "bob") FileBuffer.empty
          (r.emitted.map some)).delivered =
          [{ type := lit "file", sender := some (lit "alice"),
             filename := some (lit "a.txt"),
             blob := some { bytes := [104, 105], type := [] } }]) := by
  refine ⟨⟨_, rfl, by decide, rfl, by decide, by decide⟩, ⟨_, rfl, by decide⟩⟩

/-! ## The file handler on the peer transport -/

/-- The calls of the file handler agree with the handler: `sendFile` is called
exactly when the list of calls says so, and `sendMessage` is never called on a
connection object of either transport. -/
theorem App_onFile_calls_agree (maxArgs : Nat) (username : JSString) (conn : Option Conn)
    (file : File) :
    (App_onFile maxArgs username conn file).sendFileCalled =
        decide (ConnMethod.sendFile ∈ App_onFile_calls (conn.map Conn.object) file) ∧
      ConnMethod.sendMessage ∉ App_onFile_calls (conn.map Conn.object) file := by
  unfold App_onFile App_onFile_calls
  by_cases hsize : file.size > maxFileSize
  · simp [hsize]
  · rw [if_neg hsize, if_neg hsize]
    cases conn with
    | none => simp
    | some c =>
      cases c with
      | relayed readyState =>
        by_cases hopen : readyState = 1
        · simp [notWsOpen, Conn.object, ReadyStateValue.notWsOpen, hopen]
        · simp [notWsOpen, Conn.object, ReadyStateValue.notWsOpen, hopen]
      | peer ch => simp [notWsOpen, Conn.object, ReadyStateValue.notWsOpen]

/-- The file handler calls `sendFile` only on a relayed socket that is open,
for a file within the ceiling. -/
theorem App_onFile_sends_only_relayed (maxArgs : Nat) (username : JSString)
    (conn : Option Conn) (file : File)
    (h : (App_onFile maxArgs username conn file).sendFileCalled = true) :
    conn = some (Conn.relayed 1) ∧ file.size ≤ maxFileSize := by
  unfold App_onFile at h
  by_cases hsize : file.size > maxFileSize
  · simp [hsize] at h
  · rw [if_neg hsize] at h
    refine ⟨?_, Nat.le_of_not_lt hsize⟩
    cases conn with
    | none => simp at h
    | some c =>
      cases c with
      | relayed readyState =>
        by_cases hopen : readyState = 1
        · rw [hopen]
        · simp [notWsOpen, hopen] at h
      | peer ch => simp [notWsOpen] at h

/-- Claim C21. When the connection object is the data channel of the peer
transport, whose `readyState` is one of the strings `connecting`, `open`,
`closing`, `closed`, the file handler `onFile` calls neither `sendFile` nor
`sendMessage`, for any file and any state of the channel: its test compares
`readyState` with the number `WebSocket.OPEN`.  It emits nothing and raises the
too-large or the not-connected toast.  Whenever the handler does call
`sendFile`, the connection is the relayed socket, open. -/
theorem onFile_never_sends_on_peer (maxArgs : Nat) (username : JSString) (ch : ChannelView)
    (file : File) :
    let r := App_onFile maxArgs username (some (Conn.peer ch)) file
    (Conn.object (Conn.peer ch)).readyState.notWsOpen = true ∧
      App_onFile_calls (some (Conn.object (Conn.peer ch))) file = [] ∧
      r.sendFileCalled = false ∧ r.peerEmitted = [] ∧ r.relayEmitted = [] ∧
      r.localMessage = none ∧
      (r.toasts = [{ message := lit "❌ File too large (limit 60 MB)", type := lit "error" }] ∨
        r.toasts =
          [{ message := lit "⚠️ Not connected to server", type := lit "warning" }]) ∧
      (∀ (conn : Option Conn) (other : File),
        (App_onFile maxArgs username conn other).sendFileCalled = true →
          conn = some (Conn.relayed 1)) := by
  intro r
  have hcalls : App_onFile_calls (some (Conn.object (Conn.peer ch))) file = [] := by
    unfold App_onFile_calls
    by_cases hsize : file.size > maxFileSize
    · rw [if_pos hsize]
    · rw [if_neg hsize]
      rfl
  have hr : r.sendFileCalled = false ∧ r.peerEmitted = [] ∧ r.relayEmitted = [] ∧
      r.localMessage = none ∧
      (r.toasts = [{ message := lit "❌ File too large (limit 60 MB)", type := lit "error" }] ∨
        r.toasts =
          [{ message := lit "⚠️ Not connected to server", type := lit "warning" }]) := by
    simp only [r, App_onFile]
    by_cases hsize : file.size > maxFileSize
    · rw [if_pos hsize]
      exact ⟨rfl, rfl, rfl, rfl, Or.inl rfl⟩
    · rw [if_neg hsize]
      exact ⟨rfl, rfl, rfl, rfl, Or.inr rfl⟩
  exact ⟨rfl, hcalls, hr.1, hr.2.1, hr.2.2.1, hr.2.2.2.1, hr.2.2.2.2,
    fun conn other h => (App_onFile_sends_only_relayed maxArgs username conn other h).1⟩

/-- Witness of C21: an open relayed socket is a connection on which the handler
does call `sendFile`. -/
theorem onFile_never_sends_on_peer_witness :
    (App_onFile exampleMaxArgs (lit "alice") (some (Conn.relayed 1))
        { name := lit "a.txt", type := lit "text/plain",
          bytes := [104, 105] }).sendFileCalled = true ∧
    some (Conn.relayed 1) = some (Conn.relayed 1) :=
  ⟨by decide,
   (onFile_never_sends_on_peer exampleMaxArgs (lit "alice")
      { readyState := DcState.open, sendOk := fun _ => true }
      { name := lit "a.txt", type := lit "text/plain", bytes := [104, 105] }).2.2.2.2.2.2.2
      (some (Conn.relayed 1))
      { name := lit "a.txt", type := lit "text/plain", bytes := [104, 105] } (by decide)⟩

/-! ## Signaling messages of the local user -/

theorem lit_answer_ne : lit "answer" ≠ lit "users" ∧ lit "answer" ≠ lit "peer-left" ∧
    lit "answer" ≠ lit "peer-joined" ∧ lit "answer" ≠ lit "offer" := by decide

theorem lit_ice_ne : lit "ice" ≠ lit "users" ∧ lit "ice" ≠ lit "peer-left" ∧
    lit "ice" ≠ lit "peer-joined" ∧ lit "ice" ≠ lit "offer" ∧ lit "ice" ≠ lit "answer" := by
  decide

/-- The run of the handler on a negotiation message that carries the local
username: the notice of a `peer-joined` is handed upward, nothing else is done,
and no variable is assigned. -/
theorem own_message_run (cfg : PeerConfig) (env : PcEnv) (st : Negotiation)
    (msg : SignalMsg) (ht : msg.type ∈ negotiationTypes)
    (hu : msg.username = some cfg.username) :
    signalWs_onmessage cfg env st (some msg) =
        { state := st,
          effects :=
            if msg.type = lit "peer-joined" then
              [.onMessage { type := lit "join", username := msg.username }]
            else [] } ∧
      signalWs_onmessage_steps cfg env st (some msg) =
        if msg.type = lit "peer-joined" then
          [.call (.onMessage { type := lit "join", username := msg.username })]
        else [] := by
  have hself : notSelf cfg msg = false := by
    simp [notSelf, hu]
  simp only [negotiationTypes, List.mem_cons, List.mem_singleton, List.not_mem_nil,
    or_false] at ht
  rcases ht with h | h | h | h
  · simp [signalWs_onmessage, signalWs_onmessage_steps, h, lit_peer_joined_ne_users,
      lit_peer_joined_ne_peer_left, hself]
  · simp [signalWs_onmessage, signalWs_onmessage_steps, h, lit_offer_ne_users,
      lit_offer_ne_peer_left, lit_offer_ne_peer_joined, hself]
  · obtain ⟨h1, h2, h3, h4⟩ := lit_answer_ne
    simp [signalWs_onmessage, signalWs_onmessage_steps, h, h1, h2, h3, h4, hself]
  · obtain ⟨h1, h2, h3, h4, h5⟩ := lit_ice_ne
    simp [signalWs_onmessage, signalWs_onmessage_steps, h, h1, h2, h3, h4, h5, hself]

/-- Claim C22. A signaling message of type `peer-joined`, `offer`, `answer` or
`ice` whose `username` is the local username causes no negotiation action: the
handler makes no call on the peer connection (no session description and no
ICE candidate is applied) and sends nothing on the signaling socket, and it
assigns none of the negotiation variables, so `polite` and `makingOffer` are as
before.  The only thing it does is hand the join notice of a `peer-joined`
upward. -/
theorem own_signaling_message_is_inert (cfg : PeerConfig) (env : PcEnv) (st : Negotiation)
    (msg : SignalMsg) (ht : msg.type ∈ negotiationTypes)
    (hu : msg.username = some cfg.username) :
    let r := signalWs_onmessage cfg env st (some msg)
    (∀ e ∈ r.effects, e.isNegotiation = false) ∧
      r.effects.countP SigEffect.isSend = 0 ∧
      r.state = st ∧ r.state.polite = st.polite ∧ r.state.makingOffer = st.makingOffer ∧
      r.caught = false ∧
      (∀ s ∈ signalWs_onmessage_steps cfg env st (some msg), ∃ m, s = .call (.onMessage m)) ∧
      (msg.type ≠ lit "peer-joined" → r.effects = []) := by
  intro r
  obtain ⟨hrun, hsteps⟩ := own_message_run cfg env st msg ht hu
  have hr : r = _ := hrun
  by_cases hpj : msg.type = lit "peer-joined"
  · rw [if_pos hpj] at hr hsteps
    refine ⟨?_, ?_, ?_, ?_, ?_, ?_, ?_, ?_⟩
    · intro e he
      rw [hr] at he
      simp only [List.mem_singleton] at he
      subst he
      rfl
    · rw [hr]; rfl
    · rw [hr]
    · rw [hr]
    · rw [hr]
    · rw [hr]
    · intro s hs
      rw [hsteps] at hs
      simp only [List.mem_singleton] at hs
      exact ⟨_, hs⟩
    · intro hne
      exact absurd hpj hne
  · rw [if_neg hpj] at hr hsteps
    refine ⟨?_, ?_, ?_, ?_, ?_, ?_, ?_, ?_⟩
    · intro e he
      rw [hr] at he
      simp at he
    · rw [hr]; rfl
    · rw [hr]
    · rw [hr]
    · rw [hr]
    · rw [hr]
    · intro s hs
      rw [hsteps] at hs
      simp at hs
    · intro _
      rw [hr]

/-- Witness of C22: `alice` receives her own offer while she is impolite and
in a collision. -/
theorem own_signaling_message_is_inert_witness :
    (lit "offer" ∈ negotiationTypes ∧ some (lit "alice") = some (lit "alice")) ∧
    (signalWs_onmessage { username := lit "alice", room := lit "r1" }
        (okEnv .haveLocalOffer)
        { makingOffer := true, ignoreOffer := false, polite := false }
        (some { type := lit "offer", username := some (lit "alice"),
                sdp := some { type := lit "offer", sdp := lit "o" } })).state
      = { makingOffer := true, ignoreOffer := false, polite := false } :=
  ⟨⟨by decide, rfl⟩,
   (own_signaling_message_is_inert { username := lit "alice", room := lit "r1" }
      (okEnv .haveLocalOffer)
      { makingOffer := true, ignoreOffer := false, polite := false }
      { type := lit "offer", username := some (lit "alice"),
        sdp := some { type := lit "offer", sdp := lit "o" } }
      (by decide) rfl).2.2.1⟩

end ChatApp
